import Mathlib

/-!
Shallow embedding of the ZK-NON balance-ledger service.

The repository contains two independent implementations of the same ledger:

* Variant A — `src/src/server.js` + `src/src/db.js`: PostgreSQL-backed,
  synchronous withdrawals, row-level locking (`SELECT ... FOR UPDATE`).
* Variant B — `src/unnamed/part_000`: SQLite-backed, asynchronous withdrawal
  settlement with a fire-and-forget callback that confirms or compensates.

Monetary amounts are modelled as rationals (the sources use JS numbers /
SQL NUMERIC / SQLite REAL; all the constants appearing in the claims and in
the counterexamples below are exactly representable as IEEE doubles, so the
comparisons taken by the embedded code agree with the comparisons taken by
the JavaScript on those inputs).  SHA-256 is modelled as an abstract
function parameter `hash : String → String`.  Randomness (the generated
secret note and identifier) and timestamps are modelled as explicit inputs
to the operations.  Request fields are `Option`-valued; `none` models an
absent (or non-string / non-numeric) JSON field, and the JavaScript
falsiness tests `!x` are modelled by `falsyS` / `falsyQ` (a present empty
string and a present numeric `0` are falsy in JavaScript).
-/

namespace ZkNon

/-- Monetary amount, as stored in `total` / `spent` columns. -/
abbrev Amount := ℚ

/-- The tolerance constant `1e-9` appearing in the SQLite variant's balance
check `amt > currentBalance + 1e-9` (src/unnamed/part_000, line 329). -/
def eps : Amount := 1 / 1000000000

/-- One row of the `zk_proofs` table (identical content in both variants;
variant A names the accumulators `total_amount` / `spent_amount`). -/
structure Entry where
  id : String
  walletPubkey : String
  noteHash : String
  total : Amount
  spent : Amount
  createdAt : Nat
deriving Repr, DecidableEq

/-- Value of the `type` / `direction` column of the transaction log. -/
inductive Direction
  | DEPOSIT
  | WITHDRAW
deriving Repr, DecidableEq

/-- Value of the `status` column of variant B's `transactions` table. -/
inductive TxStatus
  | PENDING
  | CONFIRMED
  | FAILED
deriving Repr, DecidableEq

/-- One row of variant B's `transactions` table. -/
structure TxnB where
  id : Nat
  walletPubkey : String
  zkProofId : String
  type : Direction
  amount : Amount
  recipient : Option String
  txSignature : Option String
  status : TxStatus
  createdAt : Nat
deriving Repr, DecidableEq

/-- One outstanding fire-and-forget settlement callback of variant B
(the async IIFE spawned at src/unnamed/part_000 lines 361-393).  Exactly one
such job is created per accepted withdrawal and it runs exactly once. -/
structure Job where
  txId : Nat
  zkProofId : String
  amount : Amount
  recipient : String
deriving Repr, DecidableEq

/-- Full mutable state of variant B: the two tables, the AUTOINCREMENT
counter for `transactions.id`, and the outstanding settlement callbacks. -/
structure StateB where
  proofs : List Entry
  txs : List TxnB
  nextTxId : Nat
  jobs : List Job
deriving Repr, DecidableEq

/-- Initial (empty database) state of variant B; SQLite rowids start at 1. -/
def initB : StateB := ⟨[], [], 1, []⟩

/-- One row of variant A's `zk_transfers` table.  Note that this table has
no `status` column (src/src/db.js lines 24-35). -/
structure TransferA where
  id : Nat
  zkProofId : String
  walletPubkey : String
  direction : Direction
  amount : Amount
  recipient : Option String
  txSignature : Option String
  createdAt : Nat
deriving Repr, DecidableEq

/-- Full mutable state of variant A: the two tables and the SERIAL counter
for `zk_transfers.id`. -/
structure StateA where
  proofs : List Entry
  transfers : List TransferA
  nextTransferId : Nat
deriving Repr, DecidableEq

/-- Initial (empty database) state of variant A. -/
def initA : StateA := ⟨[], [], 1⟩

/-- HTTP responses of variant B's routes, by constructor:
`validationError` = 400 missing/invalid field, `notConfigured` = 500 pool
keypair missing, `collision` = 500 identifier collision, `notFound` = 404,
`authError` = 403 invalid secret note, `insufficient` = 400 insufficient
shielded balance, `generated` = issuance success, `okFlag` = the deposit
success body, which is literally the JSON object with a single `ok` field
and carries no balance (src/unnamed/part_000 line 290), and `pendingTx` =
the immediate withdrawal response. -/
inductive RespB
  | validationError (msg : String)
  | notConfigured
  | collision
  | notFound (msg : String)
  | authError
  | insufficient
  | generated (zkProofId note : String)
  | okFlag
  | pendingTx (id : Nat)
deriving Repr, DecidableEq

/-- HTTP responses of variant A's routes.  Deposit and withdrawal success
responses carry the recomputed balance / total / spent. -/
inductive RespA
  | validationError (msg : String)
  | notFound (msg : String)
  | ownershipError
  | invalidNote
  | insufficient
  | internalError
  | generated (zkProofId note : String)
  | depositOk (zkProofId : String) (balance total spent : Amount)
  | withdrawOk (zkProofId : String) (balance total spent : Amount)
deriving Repr, DecidableEq

/-- JavaScript falsiness of an optional string field: absent or empty. -/
def falsyS : Option String → Bool
  | none => true
  | some s => s == ""

/-- JavaScript falsiness of an optional numeric field: absent (or NaN after
Number conversion, modelled as `none`) or zero. -/
def falsyQ : Option Amount → Bool
  | none => true
  | some q => q == 0

/-! ### Variant B operations (src/unnamed/part_000) -/

/-- POST /api/zkproofs/generate of variant B (lines 181-210).  The random
identifier and secret note are inputs; the route checks for an existing row
with the same id and rejects the collision before inserting. -/
def generateB (hash : String → String) (walletPubkey : Option String)
    (zkProofId note : String) (now : Nat) (s : StateB) : RespB × StateB :=
  if falsyS walletPubkey then (.validationError "walletPubkey is required", s)
  else
    let w := walletPubkey.getD ""
    if (s.proofs.find? (fun e => e.id == zkProofId)).isSome then
      (.collision, s)
    else
      (.generated zkProofId note,
       { s with proofs := s.proofs ++ [⟨zkProofId, w, hash note, 0, 0, now⟩] })

/-- POST /api/deposits of variant B (lines 248-291).  All four body fields
are required (including `txSignature`); the entry is looked up by identifier
and wallet together; success inserts a CONFIRMED transaction and answers
with the bare ok flag. -/
def depositB (walletPubkey zkProofId : Option String) (amount : Option Amount)
    (txSignature : Option String) (now : Nat) (s : StateB) : RespB × StateB :=
  if falsyS walletPubkey || falsyS zkProofId || falsyQ amount || falsyS txSignature then
    (.validationError "walletPubkey, zkProofId, amount, txSignature are required", s)
  else
    let w := walletPubkey.getD ""
    let pid := zkProofId.getD ""
    let sig := txSignature.getD ""
    let amt := amount.getD 0
    match s.proofs.find? (fun e => e.id == pid && e.walletPubkey == w) with
    | none => (.notFound "zk_proof not found for this wallet", s)
    | some _ =>
      if amt ≤ 0 then (.validationError "amount must be positive", s)
      else
        let proofs := s.proofs.map fun e =>
          if e.id = pid then { e with total := e.total + amt } else e
        let t : TxnB :=
          ⟨s.nextTxId, w, pid, .DEPOSIT, amt, some "shielded_pool", some sig,
           .CONFIRMED, now⟩
        (.okFlag,
         { s with proofs := proofs, txs := s.txs ++ [t], nextTxId := s.nextTxId + 1 })

/-- POST /api/withdrawals of variant B, synchronous part (lines 294-358):
field validation, pool-configured check, lookup by identifier only, secret
note digest check, positivity check, the epsilon-tolerant balance check
`amt > currentBalance + 1e-9`, then the atomic reservation (`spent += amt`
plus a PENDING transaction row) and the immediate PENDING response.  The
spawned settlement callback is recorded as an outstanding `Job`. -/
def withdrawB (hash : String → String) (poolConfigured : Bool)
    (zkProofId note : Option String) (amount : Option Amount)
    (recipient : Option String) (now : Nat) (s : StateB) : RespB × StateB :=
  if falsyS zkProofId || falsyS note || falsyQ amount || falsyS recipient then
    (.validationError "zkProofId, note, amount, recipient are required", s)
  else if ¬ poolConfigured then (.notConfigured, s)
  else
    let pid := zkProofId.getD ""
    let n := note.getD ""
    let amt := amount.getD 0
    let r := recipient.getD ""
    match s.proofs.find? (fun e => e.id == pid) with
    | none => (.notFound "zk_proof not found", s)
    | some proof =>
      if proof.noteHash ≠ hash n then (.authError, s)
      else if amt ≤ 0 then (.validationError "amount must be positive", s)
      else
        let currentBalance := proof.total - proof.spent
        if amt > currentBalance + eps then (.insufficient, s)
        else
          let proofs := s.proofs.map fun e =>
            if e.id = pid then { e with spent := e.spent + amt } else e
          let t : TxnB :=
            ⟨s.nextTxId, proof.walletPubkey, pid, .WITHDRAW, amt, some r, none,
             .PENDING, now⟩
          (.pendingTx s.nextTxId,
           { proofs := proofs, txs := s.txs ++ [t], nextTxId := s.nextTxId + 1,
             jobs := s.jobs ++ [⟨s.nextTxId, pid, amt, r⟩] })

/-- Success branch of variant B's settlement callback (lines 371-376): the
transaction row is updated to CONFIRMED with the settlement signature; the
accumulators are untouched; the callback is consumed. -/
def settleSuccessB (txId : Nat) (sig : String) (s : StateB) : StateB :=
  match s.jobs.find? (fun j => j.txId == txId) with
  | none => s
  | some _ =>
    { s with
      txs := s.txs.map fun t =>
        if t.id = txId then { t with status := .CONFIRMED, txSignature := some sig }
        else t,
      jobs := s.jobs.filter fun j => !(j.txId == txId) }

/-- Failure branch of variant B's settlement callback (lines 377-392): one
`db.transaction` atomically sets the transaction row to FAILED and
compensates `spent -= amount` on the ledger entry; the callback is
consumed. -/
def settleFailB (txId : Nat) (s : StateB) : StateB :=
  match s.jobs.find? (fun j => j.txId == txId) with
  | none => s
  | some j =>
    { s with
      txs := s.txs.map fun t =>
        if t.id = txId then { t with status := .FAILED } else t,
      proofs := s.proofs.map fun e =>
        if e.id = j.zkProofId then { e with spent := e.spent - j.amount } else e,
      jobs := s.jobs.filter fun j => !(j.txId == txId) }

/-- Newest-first order used by variant B's history query:
ORDER BY datetime(created_at) DESC, id DESC (line 410). -/
def newerB (a b : TxnB) : Prop :=
  b.createdAt < a.createdAt ∨ (b.createdAt = a.createdAt ∧ b.id ≤ a.id)

instance decNewerB : DecidableRel newerB := fun a b =>
  decidable_of_iff
    (b.createdAt < a.createdAt ∨ (b.createdAt = a.createdAt ∧ b.id ≤ a.id)) Iff.rfl

instance : IsTotal TxnB newerB := ⟨by intro a b; unfold newerB; omega⟩

instance : IsTrans TxnB newerB := ⟨by intro a b c; unfold newerB; omega⟩

/-- GET /api/history of variant B (lines 397-428): all transactions whose
`wallet_pubkey` matches, newest first, with no LIMIT clause.  The state is
returned unchanged (the route only reads). -/
def historyB (wallet : String) (s : StateB) : List TxnB × StateB :=
  (List.insertionSort newerB (s.txs.filter fun t => t.walletPubkey == wallet), s)

/-! ### Variant A operations (src/src/server.js) -/

/-- Identifier derivation of variant A (lines 71-74):
ZKP- followed by the first 16 hex characters, upper-cased, of
sha256(walletPubkey ++ ":" ++ sha256(note)). -/
def idOfA (hash : String → String) (w note : String) : String :=
  "ZKP-" ++ ((hash (w ++ ":" ++ hash note)).take 16).toUpper

/-- POST /api/zkproofs/generate of variant A (lines 60-93).  The INSERT uses
ON CONFLICT (zk_proof_id) DO NOTHING, and the success response is returned
unconditionally: on a collision nothing is stored and the caller still
receives the (unusable) identifier and note. -/
def generateA (hash : String → String) (walletPubkey : Option String)
    (note : String) (now : Nat) (s : StateA) : RespA × StateA :=
  if falsyS walletPubkey then (.validationError "walletPubkey is required", s)
  else
    let w := walletPubkey.getD ""
    let noteHash := hash note
    let zkProofId := idOfA hash w note
    let proofs :=
      if (s.proofs.find? (fun e => e.id == zkProofId)).isSome then s.proofs
      else s.proofs ++ [⟨zkProofId, w, noteHash, 0, 0, now⟩]
    (.generated zkProofId note, { s with proofs := proofs })

/-- POST /api/deposits of variant A (lines 140-204).  `txSignature` is
optional (`txSignature || null`); validation rejects a missing, zero or
non-positive amount; the entry is looked up by identifier under FOR UPDATE
and ownership is checked separately; success re-reads the row and answers
with the updated balance. -/
def depositA (walletPubkey zkProofId : Option String) (amount : Option Amount)
    (txSignature : Option String) (now : Nat) (s : StateA) : RespA × StateA :=
  if falsyS walletPubkey || falsyS zkProofId || falsyQ amount ||
      decide (amount.getD 0 ≤ 0) then
    (.validationError "walletPubkey, zkProofId and positive amount are required", s)
  else
    let w := walletPubkey.getD ""
    let pid := zkProofId.getD ""
    let amt := amount.getD 0
    match s.proofs.find? (fun e => e.id == pid) with
    | none => (.notFound "zk_proof not found", s)
    | some proof =>
      if proof.walletPubkey ≠ w then (.ownershipError, s)
      else
        let proofs := s.proofs.map fun e =>
          if e.id = pid then { e with total := e.total + amt } else e
        let t : TransferA :=
          ⟨s.nextTransferId, pid, w, .DEPOSIT, amt, none,
           if falsyS txSignature then none else txSignature, now⟩
        match proofs.find? (fun e => e.id == pid) with
        | none => (.internalError, s)
        | some u =>
          (.depositOk pid (u.total - u.spent) u.total u.spent,
           { proofs := proofs, transfers := s.transfers ++ [t],
             nextTransferId := s.nextTransferId + 1 })

/-- POST /api/withdrawals of variant A (lines 210-290): entirely
synchronous; validation, lookup by identifier under FOR UPDATE, secret note
digest check, the exact balance check `available < amt`, then
`spent_amount += amt` plus one WITHDRAW transfer row, and a success
response with the updated balance.  No PENDING state and no settlement. -/
def withdrawA (hash : String → String) (zkProofId note : Option String)
    (amount : Option Amount) (recipient txSignature : Option String)
    (now : Nat) (s : StateA) : RespA × StateA :=
  if falsyS zkProofId || falsyS note || falsyS recipient || falsyQ amount ||
      decide (amount.getD 0 ≤ 0) then
    (.validationError "zkProofId, note, recipient and positive amount are required", s)
  else
    let pid := zkProofId.getD ""
    let n := note.getD ""
    let amt := amount.getD 0
    let r := recipient.getD ""
    match s.proofs.find? (fun e => e.id == pid) with
    | none => (.notFound "zk_proof not found", s)
    | some proof =>
      if proof.noteHash ≠ hash n then (.invalidNote, s)
      else
        let available := proof.total - proof.spent
        if available < amt then (.insufficient, s)
        else
          let proofs := s.proofs.map fun e =>
            if e.id = pid then { e with spent := e.spent + amt } else e
          let t : TransferA :=
            ⟨s.nextTransferId, pid, proof.walletPubkey, .WITHDRAW, amt, some r,
             if falsyS txSignature then none else txSignature, now⟩
          match proofs.find? (fun e => e.id == pid) with
          | none => (.internalError, s)
          | some u =>
            (.withdrawOk pid (u.total - u.spent) u.total u.spent,
             { proofs := proofs, transfers := s.transfers ++ [t],
               nextTransferId := s.nextTransferId + 1 })

/-- Newest-first order used by variant A's history query:
ORDER BY created_at DESC (line 307). -/
def newerA (a b : TransferA) : Prop := b.createdAt ≤ a.createdAt

instance decNewerA : DecidableRel newerA := fun a b =>
  decidable_of_iff (b.createdAt ≤ a.createdAt) Iff.rfl

instance : IsTotal TransferA newerA := ⟨by intro a b; unfold newerA; omega⟩

instance : IsTrans TransferA newerA := ⟨by intro a b c; unfold newerA; omega⟩

/-- GET /api/history of variant A (lines 295-327): transfers whose
`wallet_pubkey` matches, newest first, LIMIT 200.  The state is returned
unchanged (the route only reads). -/
def historyA (wallet : String) (s : StateA) : List TransferA × StateA :=
  ((List.insertionSort newerA
      (s.transfers.filter fun t => t.walletPubkey == wallet)).take 200, s)

/-! ### Serialized traces -/

/-- One serialized committed operation against variant B's store.  The
settlement outcomes of the fire-and-forget callbacks appear as explicit
`stS` (success) / `stF` (failure) events, so a trace interleaves them freely
with subsequent requests. -/
inductive OpB
  | gen (walletPubkey : Option String) (zkProofId note : String) (now : Nat)
  | dep (walletPubkey zkProofId : Option String) (amount : Option Amount)
        (txSignature : Option String) (now : Nat)
  | wd (zkProofId note : Option String) (amount : Option Amount)
       (recipient : Option String) (now : Nat)
  | stS (txId : Nat) (sig : String)
  | stF (txId : Nat)

/-- State transition of variant B for one serialized operation. -/
def stepB (hash : String → String) (pool : Bool) (s : StateB) : OpB → StateB
  | .gen w pid note now => (generateB hash w pid note now s).2
  | .dep w pid amt sig now => (depositB w pid amt sig now s).2
  | .wd pid note amt r now => (withdrawB hash pool pid note amt r now s).2
  | .stS txId sig => settleSuccessB txId sig s
  | .stF txId => settleFailB txId s

/-- Run a serialized trace of variant B from the empty database. -/
def runB (hash : String → String) (pool : Bool) (ops : List OpB) : StateB :=
  ops.foldl (stepB hash pool) initB

/-- One serialized committed operation against variant A's store. -/
inductive OpA
  | gen (walletPubkey : Option String) (note : String) (now : Nat)
  | dep (walletPubkey zkProofId : Option String) (amount : Option Amount)
        (txSignature : Option String) (now : Nat)
  | wd (zkProofId note : Option String) (amount : Option Amount)
       (recipient txSignature : Option String) (now : Nat)

/-- State transition of variant A for one serialized operation. -/
def stepA (hash : String → String) (s : StateA) : OpA → StateA
  | .gen w note now => (generateA hash w note now s).2
  | .dep w pid amt sig now => (depositA w pid amt sig now s).2
  | .wd pid note amt r sig now => (withdrawA hash pid note amt r sig now s).2

/-- Run a serialized trace of variant A from the empty database. -/
def runA (hash : String → String) (ops : List OpA) : StateA :=
  ops.foldl (stepA hash) initA

/-! ### Common traces for comparing the two variants

For the refinement claim both variants are driven by the same abstract
sequence of issuance / deposit / withdrawal requests.  Issuance randomness
is the secret note; variant A derives its identifier from it via `idOfA`,
and the same derived identifier is handed to variant B (whose identifier is
an independent random token in the source).  Every withdrawal accepted by
variant B settles successfully, matching the claim's premise. -/

/-- One abstract request submitted identically to both variants. -/
inductive OpC
  | issue (walletPubkey note : String) (now : Nat)
  | dep (walletPubkey zkProofId : String) (amount : Amount)
        (txSignature : String) (now : Nat)
  | wd (zkProofId note : String) (amount : Amount) (recipient : String)
       (now : Nat)

/-- Interpretation of an abstract request by variant A. -/
def stepAC (hash : String → String) (s : StateA) : OpC → StateA
  | .issue w note now => (generateA hash (some w) note now s).2
  | .dep w pid amt sig now => (depositA (some w) (some pid) (some amt) (some sig) now s).2
  | .wd pid note amt r now =>
    (withdrawA hash (some pid) (some note) (some amt) (some r) none now s).2

/-- Interpretation of an abstract request by variant B, with the pool
configured and every accepted withdrawal's settlement callback resolving
successfully right away (success settlement never touches the
accumulators, so its position in the serialization is immaterial to
them). -/
def stepBC (hash : String → String) (s : StateB) : OpC → StateB
  | .issue w note now => (generateB hash (some w) (idOfA hash w note) note now s).2
  | .dep w pid amt sig now => (depositB (some w) (some pid) (some amt) (some sig) now s).2
  | .wd pid note amt r now =>
    settleSuccessB s.nextTxId "settled"
      ((withdrawB hash true (some pid) (some note) (some amt) (some r) now s).2)

/-- Run an abstract trace through variant A from the empty database. -/
def runAC (hash : String → String) (ops : List OpC) : StateA :=
  ops.foldl (stepAC hash) initA

/-- Run an abstract trace through variant B from the empty database. -/
def runBC (hash : String → String) (ops : List OpC) : StateB :=
  ops.foldl (stepBC hash) initB

/-- Side condition under which the two variants agree, checked along the
variant-A run: every deposit carries a non-empty settlement reference
(variant B rejects deposits without one), and no withdrawal amount falls in
the tolerance window (balance, balance + 1e-9] of the addressed entry, where
the exact check of variant A and the epsilon-tolerant check of variant B
disagree. -/
def agreeHead (s : StateA) : OpC → Bool
  | .issue _ _ _ => true
  | .dep _ _ _ sig _ => !(sig == "")
  | .wd pid _ amt _ _ =>
    match s.proofs.find? (fun e => e.id == pid) with
    | some e =>
      !(decide (e.total - e.spent < amt) && decide (amt ≤ e.total - e.spent + eps))
    | none => true

/-- The side condition holds along the whole trace. -/
def agreeOk (hash : String → String) (s : StateA) : List OpC → Bool
  | [] => true
  | op :: ops => agreeHead s op && agreeOk hash (stepAC hash s op) ops

/-! ### Variant B invariants

InvB collects the facts preserved by every serialized committed operation
of variant B; several claims below draw on different components. -/

/-- Invariant of variant B's store, preserved by every operation. -/
structure InvB (s : StateB) : Prop where
  idNodup : (s.proofs.map (·.id)).Nodup
  slack : ∀ e ∈ s.proofs, e.spent ≤ e.total + eps
  txIdNodup : (s.txs.map (·.id)).Nodup
  txIdLt : ∀ t ∈ s.txs, t.id < s.nextTxId
  txAmtPos : ∀ t ∈ s.txs, 0 < t.amount
  jobTx : ∀ j ∈ s.jobs, ∃ t ∈ s.txs,
    t.id = j.txId ∧ t.status = .PENDING ∧ t.amount = j.amount ∧
    t.zkProofId = j.zkProofId
  txOwner : ∀ t ∈ s.txs, ∀ e ∈ s.proofs, e.id = t.zkProofId →
    t.walletPubkey = e.walletPubkey
  txEntry : ∀ t ∈ s.txs, ∃ e ∈ s.proofs, e.id = t.zkProofId


/-! ### Variant A invariants -/

/-- Invariant of variant A's store.  With the exact balance check the
no-overdraft bound is exact: `spent ≤ total` with no tolerance. -/
structure InvA (s : StateA) : Prop where
  idNodup : (s.proofs.map (·.id)).Nodup
  noOverdraft : ∀ e ∈ s.proofs, e.spent ≤ e.total
  trOwner : ∀ t ∈ s.transfers, ∀ e ∈ s.proofs, e.id = t.zkProofId →
    t.walletPubkey = e.walletPubkey
  trEntry : ∀ t ∈ s.transfers, ∃ e ∈ s.proofs, e.id = t.zkProofId


/-- A transaction of variant B belongs to a ledger entry owned by the given
wallet. -/
def ownedTxB (s : StateB) (wallet : String) (t : TxnB) : Prop :=
  ∃ e ∈ s.proofs, e.id = t.zkProofId ∧ e.walletPubkey = wallet

instance decOwnedTxB (s : StateB) (w : String) (t : TxnB) :
    Decidable (ownedTxB s w t) :=
  decidable_of_iff (∃ e ∈ s.proofs, e.id = t.zkProofId ∧ e.walletPubkey = w)
    Iff.rfl

/-- A transfer of variant A belongs to a ledger entry owned by the given
wallet. -/
def ownedTrA (s : StateA) (wallet : String) (t : TransferA) : Prop :=
  ∃ e ∈ s.proofs, e.id = t.zkProofId ∧ e.walletPubkey = wallet

instance decOwnedTrA (s : StateA) (w : String) (t : TransferA) :
    Decidable (ownedTrA s w t) :=
  decidable_of_iff (∃ e ∈ s.proofs, e.id = t.zkProofId ∧ e.walletPubkey = w)
    Iff.rfl


/-! ### Generic list helpers -/

/-- Two members of a list with duplicate-free keys that share a key are the
same member. -/
theorem key_inj {α β : Type} {f : α → β} {l : List α}
    (h : (l.map f).Nodup) {a b : α} (ha : a ∈ l) (hb : b ∈ l)
    (hk : f a = f b) : a = b :=
  List.inj_on_of_nodup_map h ha hb hk

/-- Membership in a mapped list at a fixed point of the function. -/
theorem mem_map_self {α : Type} {f : α → α} {l : List α} {a : α}
    (ha : a ∈ l) (hf : f a = a) : a ∈ l.map f := by
  have := List.mem_map_of_mem f ha
  rwa [hf] at this

/-- Mapping a key-preserving function preserves the key list. -/
theorem map_key_of_preserve {α β : Type} {f : α → α} {g : α → β} {l : List α}
    (hf : ∀ a, g (f a) = g a) : (l.map f).map g = l.map g := by
  rw [List.map_map]
  exact List.map_congr_left fun a _ => hf a

/-- Finding by a key-based predicate commutes with mapping a key-preserving
function. -/
theorem find?_map_key {α : Type} {f : α → α} {p : α → Bool} {l : List α}
    (hf : ∀ a, p (f a) = p a) :
    (l.map f).find? p = ((l.find? p).map f) := by
  rw [List.find?_map]
  have : l.find? (p ∘ f) = l.find? p := by
    induction l with
    | nil => rfl
    | cons a l ih =>
      simp only [List.find?, Function.comp, hf a]
      cases hpa : p a <;> simp [hpa, ih]
  rw [this]

/-- The tolerance constant is positive. -/
theorem eps_pos : 0 < eps := by norm_num [eps]

/-- The empty database satisfies the invariant. -/
theorem invB_init : InvB initB := by
  constructor <;> simp [initB]

/-- Identifier issuance preserves the invariant of variant B. -/
theorem invB_gen (hash : String → String) (w : Option String)
    (pid note : String) (now : Nat) (s : StateB) (h : InvB s) :
    InvB (generateB hash w pid note now s).2 := by
  unfold generateB
  split
  · exact h
  · split
    · exact h
    · next hfind =>
      have hnotin : ∀ e ∈ s.proofs, e.id ≠ pid := by
        intro e he
        have hnone : s.proofs.find? (fun e => e.id == pid) = none := by
          cases hf : s.proofs.find? (fun e => e.id == pid) with
          | none => rfl
          | some v => rw [hf] at hfind; simp at hfind
        have := List.find?_eq_none.mp hnone e he
        simpa using this
      obtain ⟨h1, h2, h3, h4, h5, h6, h7, h8⟩ := h
      refine ⟨?_, ?_, h3, h4, h5, ?_, ?_, ?_⟩
      · simp only [List.map_append, List.map_cons, List.map_nil,
          List.nodup_append]
        refine ⟨h1, List.nodup_singleton _, ?_⟩
        intro x hx hx2
        simp only [List.mem_singleton] at hx2
        subst hx2
        obtain ⟨e, he, hei⟩ := List.mem_map.mp hx
        exact hnotin e he hei
      · intro e he
        rcases List.mem_append.mp he with he | he
        · exact h2 e he
        · simp only [List.mem_singleton] at he
          subst he
          simpa using le_of_lt eps_pos
      · intro j hj
        obtain ⟨t, ht, hts⟩ := h6 j hj
        exact ⟨t, ht, hts⟩
      · intro t ht e he hid
        rcases List.mem_append.mp he with he | he
        · exact h7 t ht e he hid
        · simp only [List.mem_singleton] at he
          subst he
          obtain ⟨e', he', hei'⟩ := h8 t ht
          exact absurd (hei'.trans hid.symm) (hnotin e' he')
      · intro t ht
        obtain ⟨e, he, hei⟩ := h8 t ht
        exact ⟨e, List.mem_append.mpr (Or.inl he), hei⟩

/-- Deposit recording preserves the invariant of variant B. -/
theorem invB_dep (w pid : Option String) (amount : Option Amount)
    (sigo : Option String) (now : Nat) (s : StateB) (h : InvB s) :
    InvB (depositB w pid amount sigo now s).2 := by
  simp only [depositB]
  split
  · exact h
  · split
    · exact h
    · next proof hfind =>
      split
      · exact h
      · next hamt =>
        rw [not_le] at hamt
        obtain ⟨h1, h2, h3, h4, h5, h6, h7, h8⟩ := h
        have hproof := List.mem_of_find?_eq_some hfind
        have hpred := List.find?_some hfind
        simp only [Bool.and_eq_true, beq_iff_eq] at hpred
        obtain ⟨hpid, hpw⟩ := hpred
        have hidf : ∀ e : Entry,
            (if e.id = pid.getD "" then { e with total := e.total + amount.getD 0 } else e).id
              = e.id := by
          intro e; by_cases he : e.id = pid.getD "" <;> simp [he]
        refine ⟨?_, ?_, ?_, ?_, ?_, ?_, ?_, ?_⟩
        · exact (map_key_of_preserve hidf).symm ▸ h1
        · intro e' he'
          obtain ⟨e, he, hee⟩ := List.mem_map.mp he'
          subst hee
          by_cases hc : e.id = pid.getD ""
          · rw [if_pos hc]
            have h2e := h2 e he
            show e.spent ≤ e.total + amount.getD 0 + eps
            linarith
          · rw [if_neg hc]
            exact h2 e he
        · simp only [List.map_append, List.map_cons, List.map_nil,
            List.nodup_append]
          refine ⟨h3, List.nodup_singleton _, ?_⟩
          intro x hx hx2
          simp only [List.mem_singleton] at hx2
          subst hx2
          obtain ⟨t, ht, hti⟩ := List.mem_map.mp hx
          exact absurd hti (Nat.ne_of_lt (h4 t ht))
        · intro t ht
          rcases List.mem_append.mp ht with ht | ht
          · exact Nat.lt_succ_of_lt (h4 t ht)
          · simp only [List.mem_singleton] at ht
            subst ht
            exact Nat.lt_succ_self _
        · intro t ht
          rcases List.mem_append.mp ht with ht | ht
          · exact h5 t ht
          · simp only [List.mem_singleton] at ht
            subst ht
            exact hamt
        · intro j hj
          obtain ⟨t, ht, hts⟩ := h6 j hj
          exact ⟨t, List.mem_append.mpr (Or.inl ht), hts⟩
        · intro t ht e' he' hid'
          obtain ⟨e, he, hee⟩ := List.mem_map.mp he'
          subst hee
          rcases List.mem_append.mp ht with ht | ht
          · by_cases hc : e.id = pid.getD ""
            · rw [if_pos hc] at hid' ⊢
              have hid2 : e.id = t.zkProofId := hid'
              exact h7 t ht e he hid2
            · rw [if_neg hc] at hid' ⊢
              exact h7 t ht e he hid'
          · simp only [List.mem_singleton] at ht
            subst ht
            by_cases hc : e.id = pid.getD ""
            · have : e = proof := key_inj h1 he hproof (hc.trans hpid.symm)
              subst this
              rw [if_pos hc]
              show w.getD "" = e.walletPubkey
              exact hpw.symm
            · rw [if_neg hc] at hid'
              have : e.id = pid.getD "" := hid'
              exact absurd this hc
        · intro t ht
          rcases List.mem_append.mp ht with ht | ht
          · obtain ⟨e, he, hei⟩ := h8 t ht
            refine ⟨_, List.mem_map_of_mem _ he, (hidf e).trans hei⟩
          · simp only [List.mem_singleton] at ht
            subst ht
            refine ⟨_, List.mem_map_of_mem _ hproof, ?_⟩
            show (if proof.id = pid.getD "" then _ else proof).id = pid.getD ""
            exact (hidf proof).trans hpid

/-- Withdrawal reservation preserves the invariant of variant B; in
particular the epsilon-tolerant balance check keeps every entry within
`spent ≤ total + eps`. -/
theorem invB_wd (hash : String → String) (pool : Bool)
    (pid note : Option String) (amount : Option Amount)
    (recipient : Option String) (now : Nat) (s : StateB) (h : InvB s) :
    InvB (withdrawB hash pool pid note amount recipient now s).2 := by
  simp only [withdrawB]
  split
  · exact h
  · split
    · exact h
    · split
      · exact h
      · next proof hfind =>
        split
        · exact h
        · next hnote =>
          split
          · exact h
          · next hamt' =>
            split
            · exact h
            · next hbal =>
              rw [not_le] at hamt'
              rw [not_lt] at hbal
              obtain ⟨h1, h2, h3, h4, h5, h6, h7, h8⟩ := h
              have hproof := List.mem_of_find?_eq_some hfind
              have hpid : proof.id = pid.getD "" := by
                have := List.find?_some hfind
                simpa using this
              have hidf : ∀ e : Entry,
                  (if e.id = pid.getD "" then { e with spent := e.spent + amount.getD 0 } else e).id
                    = e.id := by
                intro e; by_cases he : e.id = pid.getD "" <;> simp [he]
              refine ⟨?_, ?_, ?_, ?_, ?_, ?_, ?_, ?_⟩
              · exact (map_key_of_preserve hidf).symm ▸ h1
              · intro e' he'
                obtain ⟨e, he, hee⟩ := List.mem_map.mp he'
                subst hee
                by_cases hc : e.id = pid.getD ""
                · have heq : e = proof := key_inj h1 he hproof (hc.trans hpid.symm)
                  subst heq
                  rw [if_pos hc]
                  show e.spent + amount.getD 0 ≤ e.total + eps
                  linarith
                · rw [if_neg hc]
                  exact h2 e he
              · simp only [List.map_append, List.map_cons, List.map_nil,
                  List.nodup_append]
                refine ⟨h3, List.nodup_singleton _, ?_⟩
                intro x hx hx2
                simp only [List.mem_singleton] at hx2
                subst hx2
                obtain ⟨t, ht, hti⟩ := List.mem_map.mp hx
                exact absurd hti (Nat.ne_of_lt (h4 t ht))
              · intro t ht
                rcases List.mem_append.mp ht with ht | ht
                · exact Nat.lt_succ_of_lt (h4 t ht)
                · simp only [List.mem_singleton] at ht
                  subst ht
                  exact Nat.lt_succ_self _
              · intro t ht
                rcases List.mem_append.mp ht with ht | ht
                · exact h5 t ht
                · simp only [List.mem_singleton] at ht
                  subst ht
                  exact hamt'
              · intro j hj
                rcases List.mem_append.mp hj with hj | hj
                · obtain ⟨t, ht, hts⟩ := h6 j hj
                  exact ⟨t, List.mem_append.mpr (Or.inl ht), hts⟩
                · simp only [List.mem_singleton] at hj
                  subst hj
                  refine ⟨_, List.mem_append.mpr (Or.inr (List.mem_singleton.mpr rfl)), ?_⟩
                  exact ⟨rfl, rfl, rfl, rfl⟩
              · intro t ht e' he' hid'
                obtain ⟨e, he, hee⟩ := List.mem_map.mp he'
                subst hee
                rcases List.mem_append.mp ht with ht | ht
                · by_cases hc : e.id = pid.getD ""
                  · rw [if_pos hc] at hid' ⊢
                    have hid2 : e.id = t.zkProofId := hid'
                    exact h7 t ht e he hid2
                  · rw [if_neg hc] at hid' ⊢
                    exact h7 t ht e he hid'
                · simp only [List.mem_singleton] at ht
                  subst ht
                  by_cases hc : e.id = pid.getD ""
                  · have heq : e = proof := key_inj h1 he hproof (hc.trans hpid.symm)
                    subst heq
                    rw [if_pos hc]
                  · rw [if_neg hc] at hid'
                    have : e.id = pid.getD "" := hid'
                    exact absurd this hc
              · intro t ht
                rcases List.mem_append.mp ht with ht | ht
                · obtain ⟨e, he, hei⟩ := h8 t ht
                  refine ⟨_, List.mem_map_of_mem _ he, (hidf e).trans hei⟩
                · simp only [List.mem_singleton] at ht
                  subst ht
                  refine ⟨_, List.mem_map_of_mem _ hproof, ?_⟩
                  show (if proof.id = pid.getD "" then _ else proof).id = pid.getD ""
                  exact (hidf proof).trans hpid

/-- Successful settlement preserves the invariant of variant B. -/
theorem invB_stS (txId : Nat) (sig : String) (s : StateB) (h : InvB s) :
    InvB (settleSuccessB txId sig s) := by
  simp only [settleSuccessB]
  split
  · exact h
  · next j hjfind =>
    obtain ⟨h1, h2, h3, h4, h5, h6, h7, h8⟩ := h
    have hidg : ∀ t : TxnB,
        (if t.id = txId then { t with status := .CONFIRMED, txSignature := some sig } else t).id
          = t.id := by
      intro t; by_cases ht : t.id = txId <;> simp [ht]
    refine ⟨h1, h2, ?_, ?_, ?_, ?_, ?_, ?_⟩
    · exact (map_key_of_preserve hidg).symm ▸ h3
    · intro t' ht'
      obtain ⟨t, ht, htt⟩ := List.mem_map.mp ht'
      subst htt
      rw [hidg t]
      exact h4 t ht
    · intro t' ht'
      obtain ⟨t, ht, htt⟩ := List.mem_map.mp ht'
      subst htt
      by_cases hc : t.id = txId
      · rw [if_pos hc]
        exact h5 t ht
      · rw [if_neg hc]
        exact h5 t ht
    · intro j' hj'
      have hj'mem := List.mem_filter.mp hj'
      obtain ⟨hj'j, hj'ne⟩ := hj'mem
      have hne : j'.txId ≠ txId := by simpa using hj'ne
      obtain ⟨t, ht, htid, htstat, htamt, htpid⟩ := h6 j' hj'j
      refine ⟨t, ?_, htid, htstat, htamt, htpid⟩
      refine mem_map_self ht ?_
      rw [if_neg (by rw [htid]; exact hne)]
    · intro t' ht' e he hid
      obtain ⟨t, ht, htt⟩ := List.mem_map.mp ht'
      subst htt
      by_cases hc : t.id = txId
      · rw [if_pos hc] at hid ⊢
        exact h7 t ht e he hid
      · rw [if_neg hc] at hid ⊢
        exact h7 t ht e he hid
    · intro t' ht'
      obtain ⟨t, ht, htt⟩ := List.mem_map.mp ht'
      subst htt
      obtain ⟨e, he, hei⟩ := h8 t ht
      by_cases hc : t.id = txId
      · rw [if_pos hc]
        exact ⟨e, he, hei⟩
      · rw [if_neg hc]
        exact ⟨e, he, hei⟩

/-- Failed settlement (compensation) preserves the invariant of variant B;
the compensated entry stays within `spent ≤ total + eps` because the
reserved amount it gives back is positive. -/
theorem invB_stF (txId : Nat) (s : StateB) (h : InvB s) :
    InvB (settleFailB txId s) := by
  simp only [settleFailB]
  split
  · exact h
  · next j hjfind =>
    obtain ⟨h1, h2, h3, h4, h5, h6, h7, h8⟩ := h
    have hjmem := List.mem_of_find?_eq_some hjfind
    have hjamt : 0 < j.amount := by
      obtain ⟨t, ht, _, _, htamt, _⟩ := h6 j hjmem
      rw [← htamt]
      exact h5 t ht
    have hidg : ∀ t : TxnB,
        (if t.id = txId then { t with status := .FAILED } else t).id = t.id := by
      intro t; by_cases ht : t.id = txId <;> simp [ht]
    have hide : ∀ e : Entry,
        (if e.id = j.zkProofId then { e with spent := e.spent - j.amount } else e).id
          = e.id := by
      intro e; by_cases he : e.id = j.zkProofId <;> simp [he]
    have hwe : ∀ e : Entry,
        (if e.id = j.zkProofId then { e with spent := e.spent - j.amount } else e).walletPubkey
          = e.walletPubkey := by
      intro e; by_cases he : e.id = j.zkProofId <;> simp [he]
    refine ⟨?_, ?_, ?_, ?_, ?_, ?_, ?_, ?_⟩
    · exact (map_key_of_preserve hide).symm ▸ h1
    · intro e' he'
      obtain ⟨e, he, hee⟩ := List.mem_map.mp he'
      subst hee
      by_cases hc : e.id = j.zkProofId
      · rw [if_pos hc]
        have := h2 e he
        show e.spent - j.amount ≤ e.total + eps
        linarith
      · rw [if_neg hc]
        exact h2 e he
    · exact (map_key_of_preserve hidg).symm ▸ h3
    · intro t' ht'
      obtain ⟨t, ht, htt⟩ := List.mem_map.mp ht'
      subst htt
      rw [hidg t]
      exact h4 t ht
    · intro t' ht'
      obtain ⟨t, ht, htt⟩ := List.mem_map.mp ht'
      subst htt
      by_cases hc : t.id = txId
      · rw [if_pos hc]
        exact h5 t ht
      · rw [if_neg hc]
        exact h5 t ht
    · intro j' hj'
      have hj'mem := List.mem_filter.mp hj'
      obtain ⟨hj'j, hj'ne⟩ := hj'mem
      have hne : j'.txId ≠ txId := by simpa using hj'ne
      obtain ⟨t, ht, htid, htstat, htamt, htpid⟩ := h6 j' hj'j
      refine ⟨t, ?_, htid, htstat, htamt, htpid⟩
      refine mem_map_self ht ?_
      rw [if_neg (by rw [htid]; exact hne)]
    · intro t' ht' e' he' hid
      obtain ⟨t, ht, htt⟩ := List.mem_map.mp ht'
      subst htt
      obtain ⟨e, he, hee⟩ := List.mem_map.mp he'
      subst hee
      rw [hwe e]
      have hid2 : e.id = (if t.id = txId then { t with status := TxStatus.FAILED } else t).zkProofId := by
        rw [← hide e]
        exact hid
      by_cases hc : t.id = txId
      · rw [if_pos hc] at hid2 ⊢
        exact h7 t ht e he hid2
      · rw [if_neg hc] at hid2 ⊢
        exact h7 t ht e he hid2
    · intro t' ht'
      obtain ⟨t, ht, htt⟩ := List.mem_map.mp ht'
      subst htt
      obtain ⟨e, he, hei⟩ := h8 t ht
      refine ⟨_, List.mem_map_of_mem _ he, ?_⟩
      rw [hide e]
      by_cases hc : t.id = txId
      · rw [if_pos hc]
        exact hei
      · rw [if_neg hc]
        exact hei

/-- Every serialized committed operation preserves the invariant. -/
theorem invB_step (hash : String → String) (pool : Bool) (s : StateB)
    (op : OpB) (h : InvB s) : InvB (stepB hash pool s op) := by
  cases op with
  | gen w pid note now => exact invB_gen hash w pid note now s h
  | dep w pid amt sig now => exact invB_dep w pid amt sig now s h
  | wd pid note amt r now => exact invB_wd hash pool pid note amt r now s h
  | stS txId sig => exact invB_stS txId sig s h
  | stF txId => exact invB_stF txId s h

/-- The invariant holds in every state reachable by a serialized trace of
variant B from the empty database. -/
theorem invB_run (hash : String → String) (pool : Bool) (ops : List OpB) :
    InvB (runB hash pool ops) := by
  have main : ∀ (l : List OpB) (s : StateB), InvB s →
      InvB (l.foldl (stepB hash pool) s) := by
    intro l
    induction l with
    | nil => intro s hs; exact hs
    | cons op l ih =>
      intro s hs
      exact ih _ (invB_step hash pool s op hs)
  exact main ops initB invB_init

/-- The empty database satisfies variant A's invariant. -/
theorem invA_init : InvA initA := by
  constructor <;> simp [initA]

/-- Identifier issuance preserves the invariant of variant A. -/
theorem invA_gen (hash : String → String) (w : Option String)
    (note : String) (now : Nat) (s : StateA) (h : InvA s) :
    InvA (generateA hash w note now s).2 := by
  simp only [generateA]
  split
  · exact h
  · split
    · next hfind =>
      exact ⟨h.idNodup, h.noOverdraft, h.trOwner, h.trEntry⟩
    · next hfind =>
      have hnone : s.proofs.find? (fun e => e.id == idOfA hash (w.getD "") note) = none := by
        cases hf : s.proofs.find? (fun e => e.id == idOfA hash (w.getD "") note) with
        | none => rfl
        | some v => rw [hf] at hfind; simp at hfind
      have hnotin : ∀ e ∈ s.proofs, e.id ≠ idOfA hash (w.getD "") note := by
        intro e he
        have := List.find?_eq_none.mp hnone e he
        simpa using this
      obtain ⟨h1, h2, h3, h4⟩ := h
      refine ⟨?_, ?_, ?_, ?_⟩
      · simp only [List.map_append, List.map_cons, List.map_nil,
          List.nodup_append]
        refine ⟨h1, List.nodup_singleton _, ?_⟩
        intro x hx hx2
        simp only [List.mem_singleton] at hx2
        subst hx2
        obtain ⟨e, he, hei⟩ := List.mem_map.mp hx
        exact hnotin e he hei
      · intro e he
        rcases List.mem_append.mp he with he | he
        · exact h2 e he
        · simp only [List.mem_singleton] at he
          subst he
          exact le_refl _
      · intro t ht e he hid
        rcases List.mem_append.mp he with he | he
        · exact h3 t ht e he hid
        · simp only [List.mem_singleton] at he
          subst he
          obtain ⟨e', he', hei'⟩ := h4 t ht
          exact absurd (hei'.trans hid.symm) (hnotin e' he')
      · intro t ht
        obtain ⟨e, he, hei⟩ := h4 t ht
        exact ⟨e, List.mem_append.mpr (Or.inl he), hei⟩

/-- Deposit recording preserves the invariant of variant A. -/
theorem invA_dep (w pid : Option String) (amount : Option Amount)
    (sigo : Option String) (now : Nat) (s : StateA) (h : InvA s) :
    InvA (depositA w pid amount sigo now s).2 := by
  simp only [depositA]
  split
  · exact h
  · next hval =>
    split
    · exact h
    · next proof hfind =>
      split
      · exact h
      · next hown =>
        split
        · exact h
        · next u hfindu =>
          have hamt : 0 < amount.getD 0 := by
            by_contra hcon
            rw [not_lt] at hcon
            exact hval (by simp [hcon])
          obtain ⟨h1, h2, h3, h4⟩ := h
          have hproof := List.mem_of_find?_eq_some hfind
          have hpid : proof.id = pid.getD "" := by
            have := List.find?_some hfind
            simpa using this
          rw [not_not] at hown
          have hidf : ∀ e : Entry,
              (if e.id = pid.getD "" then { e with total := e.total + amount.getD 0 } else e).id
                = e.id := by
            intro e; by_cases he : e.id = pid.getD "" <;> simp [he]
          refine ⟨?_, ?_, ?_, ?_⟩
          · exact (map_key_of_preserve hidf).symm ▸ h1
          · intro e' he'
            obtain ⟨e, he, hee⟩ := List.mem_map.mp he'
            subst hee
            by_cases hc : e.id = pid.getD ""
            · rw [if_pos hc]
              have := h2 e he
              show e.spent ≤ e.total + amount.getD 0
              linarith
            · rw [if_neg hc]
              exact h2 e he
          · intro t ht e' he' hid'
            obtain ⟨e, he, hee⟩ := List.mem_map.mp he'
            subst hee
            rcases List.mem_append.mp ht with ht | ht
            · by_cases hc : e.id = pid.getD ""
              · rw [if_pos hc] at hid' ⊢
                have hid2 : e.id = t.zkProofId := hid'
                exact h3 t ht e he hid2
              · rw [if_neg hc] at hid' ⊢
                exact h3 t ht e he hid'
            · simp only [List.mem_singleton] at ht
              subst ht
              by_cases hc : e.id = pid.getD ""
              · have heq : e = proof := key_inj h1 he hproof (hc.trans hpid.symm)
                subst heq
                rw [if_pos hc]
                show w.getD "" = e.walletPubkey
                exact hown.symm
              · rw [if_neg hc] at hid'
                have : e.id = pid.getD "" := hid'
                exact absurd this hc
          · intro t ht
            rcases List.mem_append.mp ht with ht | ht
            · obtain ⟨e, he, hei⟩ := h4 t ht
              refine ⟨_, List.mem_map_of_mem _ he, (hidf e).trans hei⟩
            · simp only [List.mem_singleton] at ht
              subst ht
              refine ⟨_, List.mem_map_of_mem _ hproof, ?_⟩
              show (if proof.id = pid.getD "" then _ else proof).id = pid.getD ""
              exact (hidf proof).trans hpid

/-- Withdrawal preserves the invariant of variant A; the exact balance
check keeps `spent ≤ total` with no tolerance. -/
theorem invA_wd (hash : String → String) (pid note : Option String)
    (amount : Option Amount) (recipient sigo : Option String) (now : Nat)
    (s : StateA) (h : InvA s) :
    InvA (withdrawA hash pid note amount recipient sigo now s).2 := by
  simp only [withdrawA]
  split
  · exact h
  · next hval =>
    split
    · exact h
    · next proof hfind =>
      split
      · exact h
      · next hnote =>
        split
        · exact h
        · next hbal =>
          split
          · exact h
          · next u hfindu =>
            rw [not_lt] at hbal
            obtain ⟨h1, h2, h3, h4⟩ := h
            have hproof := List.mem_of_find?_eq_some hfind
            have hpid : proof.id = pid.getD "" := by
              have := List.find?_some hfind
              simpa using this
            have hidf : ∀ e : Entry,
                (if e.id = pid.getD "" then { e with spent := e.spent + amount.getD 0 } else e).id
                  = e.id := by
              intro e; by_cases he : e.id = pid.getD "" <;> simp [he]
            refine ⟨?_, ?_, ?_, ?_⟩
            · exact (map_key_of_preserve hidf).symm ▸ h1
            · intro e' he'
              obtain ⟨e, he, hee⟩ := List.mem_map.mp he'
              subst hee
              by_cases hc : e.id = pid.getD ""
              · have heq : e = proof := key_inj h1 he hproof (hc.trans hpid.symm)
                subst heq
                rw [if_pos hc]
                show e.spent + amount.getD 0 ≤ e.total
                linarith
              · rw [if_neg hc]
                exact h2 e he
            · intro t ht e' he' hid'
              obtain ⟨e, he, hee⟩ := List.mem_map.mp he'
              subst hee
              rcases List.mem_append.mp ht with ht | ht
              · by_cases hc : e.id = pid.getD ""
                · rw [if_pos hc] at hid' ⊢
                  have hid2 : e.id = t.zkProofId := hid'
                  exact h3 t ht e he hid2
                · rw [if_neg hc] at hid' ⊢
                  exact h3 t ht e he hid'
              · simp only [List.mem_singleton] at ht
                subst ht
                by_cases hc : e.id = pid.getD ""
                · have heq : e = proof := key_inj h1 he hproof (hc.trans hpid.symm)
                  subst heq
                  rw [if_pos hc]
                · rw [if_neg hc] at hid'
                  have : e.id = pid.getD "" := hid'
                  exact absurd this hc
            · intro t ht
              rcases List.mem_append.mp ht with ht | ht
              · obtain ⟨e, he, hei⟩ := h4 t ht
                refine ⟨_, List.mem_map_of_mem _ he, (hidf e).trans hei⟩
              · simp only [List.mem_singleton] at ht
                subst ht
                refine ⟨_, List.mem_map_of_mem _ hproof, ?_⟩
                show (if proof.id = pid.getD "" then _ else proof).id = pid.getD ""
                exact (hidf proof).trans hpid

/-- Every serialized committed operation preserves variant A's invariant. -/
theorem invA_step (hash : String → String) (s : StateA) (op : OpA)
    (h : InvA s) : InvA (stepA hash s op) := by
  cases op with
  | gen w note now => exact invA_gen hash w note now s h
  | dep w pid amt sig now => exact invA_dep w pid amt sig now s h
  | wd pid note amt r sig now => exact invA_wd hash pid note amt r sig now s h

/-- The invariant holds in every state reachable by a serialized trace of
variant A from the empty database. -/
theorem invA_run (hash : String → String) (ops : List OpA) :
    InvA (runA hash ops) := by
  have main : ∀ (l : List OpA) (s : StateA), InvA s →
      InvA (l.foldl (stepA hash) s) := by
    intro l
    induction l with
    | nil => intro s hs; exact hs
    | cons op l ih =>
      intro s hs
      exact ih _ (invA_step hash s op hs)
  exact main ops initA invA_init

/-! ### Branch characterizations of the operations -/

/-- Variant B withdrawal, secret-note mismatch branch: the request is
rejected with the 403 response and the state is untouched. -/
theorem withdrawB_auth (hash : String → String) (pool : Bool)
    (pid note : Option String) (amount : Option Amount)
    (r : Option String) (now : Nat) (s : StateB) (proof : Entry)
    (hf1 : falsyS pid = false) (hf2 : falsyS note = false)
    (hf3 : falsyQ amount = false) (hf4 : falsyS r = false)
    (hpool : pool = true)
    (hfind : s.proofs.find? (fun e => e.id == pid.getD "") = some proof)
    (hnote : proof.noteHash ≠ hash (note.getD "")) :
    withdrawB hash pool pid note amount r now s = (.authError, s) := by
  simp [withdrawB, hf1, hf2, hf3, hf4, hpool, hfind, hnote]

/-- Variant B withdrawal, insufficient-balance branch: an amount exceeding
the available balance by more than the 1e-9 tolerance is rejected and the
state is untouched. -/
theorem withdrawB_insufficient (hash : String → String) (pool : Bool)
    (pid note : Option String) (amount : Option Amount)
    (r : Option String) (now : Nat) (s : StateB) (proof : Entry)
    (hf1 : falsyS pid = false) (hf2 : falsyS note = false)
    (hf3 : falsyQ amount = false) (hf4 : falsyS r = false)
    (hpool : pool = true)
    (hfind : s.proofs.find? (fun e => e.id == pid.getD "") = some proof)
    (hnote : proof.noteHash = hash (note.getD ""))
    (hamt : 0 < amount.getD 0)
    (hbal : proof.total - proof.spent + eps < amount.getD 0) :
    withdrawB hash pool pid note amount r now s = (.insufficient, s) := by
  simp [withdrawB, hf1, hf2, hf3, hf4, hpool, hfind, hnote, not_le.mpr hamt,
    hbal]

/-- Variant B withdrawal, accepted branch: the reservation increments
`spent`, appends one PENDING WITHDRAW transaction, spawns one settlement
job, and answers PENDING with the new transaction id. -/
theorem withdrawB_accept (hash : String → String) (pool : Bool)
    (pid note : Option String) (amount : Option Amount)
    (r : Option String) (now : Nat) (s : StateB) (proof : Entry)
    (hf1 : falsyS pid = false) (hf2 : falsyS note = false)
    (hf3 : falsyQ amount = false) (hf4 : falsyS r = false)
    (hpool : pool = true)
    (hfind : s.proofs.find? (fun e => e.id == pid.getD "") = some proof)
    (hnote : proof.noteHash = hash (note.getD ""))
    (hamt : 0 < amount.getD 0)
    (hbal : amount.getD 0 ≤ proof.total - proof.spent + eps) :
    withdrawB hash pool pid note amount r now s =
      (.pendingTx s.nextTxId,
       { proofs := s.proofs.map fun e =>
           if e.id = pid.getD "" then { e with spent := e.spent + amount.getD 0 } else e,
         txs := s.txs ++
           [⟨s.nextTxId, proof.walletPubkey, pid.getD "", .WITHDRAW,
             amount.getD 0, some (r.getD ""), none, .PENDING, now⟩],
         nextTxId := s.nextTxId + 1,
         jobs := s.jobs ++ [⟨s.nextTxId, pid.getD "", amount.getD 0, r.getD ""⟩] }) := by
  simp [withdrawB, hf1, hf2, hf3, hf4, hpool, hfind, hnote, not_le.mpr hamt,
    not_lt.mpr hbal]

/-- Variant B deposit, accepted branch: `total` is incremented, exactly one
CONFIRMED DEPOSIT transaction is appended, and the response is the bare ok
flag carrying no balance. -/
theorem depositB_accept (w pid : Option String) (amount : Option Amount)
    (sigo : Option String) (now : Nat) (s : StateB) (proof : Entry)
    (hf1 : falsyS w = false) (hf2 : falsyS pid = false)
    (hf3 : falsyQ amount = false) (hf4 : falsyS sigo = false)
    (hfind : s.proofs.find?
      (fun e => e.id == pid.getD "" && e.walletPubkey == w.getD "") = some proof)
    (hamt : 0 < amount.getD 0) :
    depositB w pid amount sigo now s =
      (.okFlag,
       { proofs := s.proofs.map fun e =>
           if e.id = pid.getD "" then { e with total := e.total + amount.getD 0 } else e,
         txs := s.txs ++
           [⟨s.nextTxId, w.getD "", pid.getD "", .DEPOSIT, amount.getD 0,
             some "shielded_pool", some (sigo.getD ""), .CONFIRMED, now⟩],
         nextTxId := s.nextTxId + 1,
         jobs := s.jobs }) := by
  simp [depositB, hf1, hf2, hf3, hf4, hfind, not_le.mpr hamt]

/-- Variant B deposit with an absent settlement reference: rejected at
validation with no mutation (the reference is required in this variant). -/
theorem depositB_noSig (w pid : Option String) (amount : Option Amount)
    (now : Nat) (s : StateB) :
    depositB w pid amount none now s =
      (.validationError "walletPubkey, zkProofId, amount, txSignature are required", s) := by
  simp [depositB, falsyS]

/-- Variant B deposit, wrong-owner or missing-entry branch: the combined
lookup by identifier and wallet fails and the route answers 404. -/
theorem depositB_notFound (w pid : Option String) (amount : Option Amount)
    (sigo : Option String) (now : Nat) (s : StateB)
    (hf1 : falsyS w = false) (hf2 : falsyS pid = false)
    (hf3 : falsyQ amount = false) (hf4 : falsyS sigo = false)
    (hfind : s.proofs.find?
      (fun e => e.id == pid.getD "" && e.walletPubkey == w.getD "") = none) :
    depositB w pid amount sigo now s =
      (.notFound "zk_proof not found for this wallet", s) := by
  simp [depositB, hf1, hf2, hf3, hf4, hfind]

/-- Variant B settlement success on the job created by the latest accepted
withdrawal: the PENDING transaction becomes CONFIRMED and carries the
settlement reference; the ledger entries are untouched. -/
theorem settleSuccessB_proofs (txId : Nat) (sig : String) (s : StateB) :
    (settleSuccessB txId sig s).proofs = s.proofs := by
  unfold settleSuccessB
  split <;> rfl

/-- Variant A withdrawal, secret-note mismatch branch: rejected with the
invalid-note response and no mutation. -/
theorem withdrawA_auth (hash : String → String) (pid note : Option String)
    (amount : Option Amount) (r sigo : Option String) (now : Nat)
    (s : StateA) (proof : Entry)
    (hf1 : falsyS pid = false) (hf2 : falsyS note = false)
    (hf3 : falsyS r = false) (hf4 : falsyQ amount = false)
    (hamt : 0 < amount.getD 0)
    (hfind : s.proofs.find? (fun e => e.id == pid.getD "") = some proof)
    (hnote : proof.noteHash ≠ hash (note.getD "")) :
    withdrawA hash pid note amount r sigo now s = (.invalidNote, s) := by
  simp [withdrawA, hf1, hf2, hf3, hf4, hfind, hnote, not_le.mpr hamt]

/-- Variant A withdrawal, insufficient-balance branch: the exact check
`available < amt` rejects the request with no mutation. -/
theorem withdrawA_insufficient (hash : String → String)
    (pid note : Option String) (amount : Option Amount)
    (r sigo : Option String) (now : Nat) (s : StateA) (proof : Entry)
    (hf1 : falsyS pid = false) (hf2 : falsyS note = false)
    (hf3 : falsyS r = false) (hf4 : falsyQ amount = false)
    (hamt : 0 < amount.getD 0)
    (hfind : s.proofs.find? (fun e => e.id == pid.getD "") = some proof)
    (hnote : proof.noteHash = hash (note.getD ""))
    (hbal : proof.total - proof.spent < amount.getD 0) :
    withdrawA hash pid note amount r sigo now s = (.insufficient, s) := by
  simp [withdrawA, hf1, hf2, hf3, hf4, hfind, hnote, not_le.mpr hamt, hbal]

/-- Variant A deposit, accepted branch: `total` is incremented, exactly one
DEPOSIT transfer row (with no status field) is appended, and the response
carries the re-read balance, total and spent.  The settlement reference is
optional: no hypothesis constrains `sigo`. -/
theorem depositA_accept (w pid : Option String) (amount : Option Amount)
    (sigo : Option String) (now : Nat) (s : StateA) (proof : Entry)
    (hf1 : falsyS w = false) (hf2 : falsyS pid = false)
    (hf3 : falsyQ amount = false) (hamt : 0 < amount.getD 0)
    (hfind : s.proofs.find? (fun e => e.id == pid.getD "") = some proof)
    (hown : proof.walletPubkey = w.getD "") :
    depositA w pid amount sigo now s =
      (.depositOk (pid.getD "") (proof.total + amount.getD 0 - proof.spent)
        (proof.total + amount.getD 0) proof.spent,
       { proofs := s.proofs.map fun e =>
           if e.id = pid.getD "" then { e with total := e.total + amount.getD 0 } else e,
         transfers := s.transfers ++
           [⟨s.nextTransferId, pid.getD "", w.getD "", .DEPOSIT, amount.getD 0,
             none, if falsyS sigo then none else sigo, now⟩],
         nextTransferId := s.nextTransferId + 1 }) := by
  have hpid : proof.id = pid.getD "" := by
    have := List.find?_some hfind
    simpa using this
  have hpres : ∀ e : Entry,
      ((fun e : Entry => e.id == pid.getD "")
        ((fun e : Entry => if e.id = pid.getD ""
            then { e with total := e.total + amount.getD 0 } else e) e))
        = (fun e : Entry => e.id == pid.getD "") e := by
    intro e; by_cases he : e.id = pid.getD "" <;> simp [he]
  have hfind2 :
      (s.proofs.map fun e =>
        if e.id = pid.getD "" then { e with total := e.total + amount.getD 0 } else e).find?
          (fun e => e.id == pid.getD "")
        = some { proof with total := proof.total + amount.getD 0 } := by
    rw [find?_map_key hpres, hfind]
    simp [hpid]
  simp [depositA, hf1, hf2, hf3, hfind, hown, not_le.mpr hamt, hfind2]

/-- Variant A deposit, unknown-identifier branch: 404 with no mutation. -/
theorem depositA_notFound (w pid : Option String) (amount : Option Amount)
    (sigo : Option String) (now : Nat) (s : StateA)
    (hf1 : falsyS w = false) (hf2 : falsyS pid = false)
    (hf3 : falsyQ amount = false) (hamt : 0 < amount.getD 0)
    (hfind : s.proofs.find? (fun e => e.id == pid.getD "") = none) :
    depositA w pid amount sigo now s = (.notFound "zk_proof not found", s) := by
  simp [depositA, hf1, hf2, hf3, hfind, not_le.mpr hamt]

/-- Variant A deposit, owner-mismatch branch: the dedicated ownership error
with no mutation. -/
theorem depositA_ownership (w pid : Option String) (amount : Option Amount)
    (sigo : Option String) (now : Nat) (s : StateA) (proof : Entry)
    (hf1 : falsyS w = false) (hf2 : falsyS pid = false)
    (hf3 : falsyQ amount = false) (hamt : 0 < amount.getD 0)
    (hfind : s.proofs.find? (fun e => e.id == pid.getD "") = some proof)
    (hown : proof.walletPubkey ≠ w.getD "") :
    depositA w pid amount sigo now s = (.ownershipError, s) := by
  simp [depositA, hf1, hf2, hf3, hfind, hown, not_le.mpr hamt]

/-- Variant A deposit, invalid-amount branch: a missing, NaN, zero or
non-positive amount is rejected at validation with no mutation. -/
theorem depositA_badAmount (w pid : Option String) (amount : Option Amount)
    (sigo : Option String) (now : Nat) (s : StateA)
    (hbad : falsyQ amount = true ∨ amount.getD 0 ≤ 0) :
    depositA w pid amount sigo now s =
      (.validationError "walletPubkey, zkProofId and positive amount are required", s) := by
  rcases hbad with hbad | hbad <;> simp [depositA, hbad]

/-- Variant A withdrawal, accepted branch: synchronous debit of `spent`,
one WITHDRAW transfer row appended, and an immediate success response with
the re-read balance — there is no PENDING state in this variant. -/
theorem withdrawA_accept (hash : String → String) (pid note : Option String)
    (amount : Option Amount) (r sigo : Option String) (now : Nat)
    (s : StateA) (proof : Entry)
    (hf1 : falsyS pid = false) (hf2 : falsyS note = false)
    (hf3 : falsyS r = false) (hf4 : falsyQ amount = false)
    (hamt : 0 < amount.getD 0)
    (hfind : s.proofs.find? (fun e => e.id == pid.getD "") = some proof)
    (hnote : proof.noteHash = hash (note.getD ""))
    (hbal : amount.getD 0 ≤ proof.total - proof.spent) :
    withdrawA hash pid note amount r sigo now s =
      (.withdrawOk (pid.getD "") (proof.total - (proof.spent + amount.getD 0))
        proof.total (proof.spent + amount.getD 0),
       { proofs := s.proofs.map fun e =>
           if e.id = pid.getD "" then { e with spent := e.spent + amount.getD 0 } else e,
         transfers := s.transfers ++
           [⟨s.nextTransferId, pid.getD "", proof.walletPubkey, .WITHDRAW,
             amount.getD 0, some (r.getD ""),
             if falsyS sigo then none else sigo, now⟩],
         nextTransferId := s.nextTransferId + 1 }) := by
  have hpid : proof.id = pid.getD "" := by
    have := List.find?_some hfind
    simpa using this
  have hpres : ∀ e : Entry,
      ((fun e : Entry => e.id == pid.getD "")
        ((fun e : Entry => if e.id = pid.getD ""
            then { e with spent := e.spent + amount.getD 0 } else e) e))
        = (fun e : Entry => e.id == pid.getD "") e := by
    intro e; by_cases he : e.id = pid.getD "" <;> simp [he]
  have hfind2 :
      (s.proofs.map fun e =>
        if e.id = pid.getD "" then { e with spent := e.spent + amount.getD 0 } else e).find?
          (fun e => e.id == pid.getD "")
        = some { proof with spent := proof.spent + amount.getD 0 } := by
    rw [find?_map_key hpres, hfind]
    simp [hpid]
  simp [withdrawA, hf1, hf2, hf3, hf4, hfind, hnote, not_le.mpr hamt,
    not_lt.mpr hbal, hfind2]

/-- In an invariant-satisfying state, no outstanding job carries the next
transaction id (all job ids refer to already-created transactions). -/
theorem jobs_txId_lt (s : StateB) (hinv : InvB s) :
    ∀ jb ∈ s.jobs, jb.txId ≠ s.nextTxId := by
  intro jb hjb
  obtain ⟨t, ht, htid, _, _, _⟩ := hinv.jobTx jb hjb
  rw [← htid]
  exact Nat.ne_of_lt (hinv.txIdLt t ht)

/-- Failed settlement of the job created by an accepted withdrawal: the
transaction row ends FAILED and the compensation `spent -= amount` restores
every ledger entry to its exact pre-reservation value, atomically (one
transition). -/
theorem settleFailB_restores (hash : String → String) (pool : Bool)
    (pid note : Option String) (amount : Option Amount)
    (r : Option String) (now : Nat) (s : StateB) (proof : Entry)
    (hinv : InvB s)
    (hf1 : falsyS pid = false) (hf2 : falsyS note = false)
    (hf3 : falsyQ amount = false) (hf4 : falsyS r = false)
    (hpool : pool = true)
    (hfind : s.proofs.find? (fun e => e.id == pid.getD "") = some proof)
    (hnote : proof.noteHash = hash (note.getD ""))
    (hamt : 0 < amount.getD 0)
    (hbal : amount.getD 0 ≤ proof.total - proof.spent + eps) :
    settleFailB s.nextTxId ((withdrawB hash pool pid note amount r now s).2) =
      { proofs := s.proofs,
        txs := s.txs ++
          [⟨s.nextTxId, proof.walletPubkey, pid.getD "", .WITHDRAW,
            amount.getD 0, some (r.getD ""), none, .FAILED, now⟩],
        nextTxId := s.nextTxId + 1,
        jobs := s.jobs } := by
  have hold := jobs_txId_lt s hinv
  rw [withdrawB_accept hash pool pid note amount r now s proof hf1 hf2 hf3 hf4
    hpool hfind hnote hamt hbal]
  simp only [settleFailB]
  have hjf : ((s.jobs ++ [(⟨s.nextTxId, pid.getD "", amount.getD 0, r.getD ""⟩ : Job)]).find?
      (fun j => j.txId == s.nextTxId))
        = some (⟨s.nextTxId, pid.getD "", amount.getD 0, r.getD ""⟩ : Job) := by
    rw [List.find?_append]
    have h1 : s.jobs.find? (fun j => j.txId == s.nextTxId) = none := by
      rw [List.find?_eq_none]
      intro jb hjb
      simpa using hold jb hjb
    rw [h1]
    simp
  rw [hjf]
  simp only [StateB.mk.injEq]
  refine ⟨?_, ?_, trivial, ?_⟩
  · rw [List.map_map]
    have hcomp : ∀ e ∈ s.proofs,
        ((fun e : Entry => if e.id = pid.getD ""
            then { e with spent := e.spent - amount.getD 0 } else e) ∘
         (fun e : Entry => if e.id = pid.getD ""
            then { e with spent := e.spent + amount.getD 0 } else e)) e = e := by
      intro e _
      cases e with
      | mk i w nh tot sp ca =>
        by_cases hc : i = pid.getD ""
        · simp [Function.comp, hc]
        · simp [Function.comp, hc]
    calc (s.proofs.map _) = s.proofs.map id := List.map_congr_left hcomp
      _ = s.proofs := List.map_id _
  · rw [List.map_append]
    refine congrArg₂ _ ?_ ?_
    · calc (s.txs.map _) = s.txs.map id := by
            refine List.map_congr_left ?_
            intro t ht
            rw [if_neg (Nat.ne_of_lt (hinv.txIdLt t ht))]
            rfl
        _ = s.txs := List.map_id _
    · simp
  · rw [List.filter_append]
    have h2 : s.jobs.filter (fun j => !(j.txId == s.nextTxId)) = s.jobs := by
      refine List.filter_eq_self.mpr ?_
      intro jb hjb
      simpa using hold jb hjb
    rw [h2]
    simp

/-- Successful settlement of the job created by an accepted withdrawal: the
PENDING transaction row becomes CONFIRMED and records the settlement
reference; the ledger entry keeps the reservation (no accumulator
change). -/
theorem settleSuccessB_afterWithdraw (hash : String → String) (pool : Bool)
    (pid note : Option String) (amount : Option Amount)
    (r : Option String) (now : Nat) (sig : String) (s : StateB) (proof : Entry)
    (hinv : InvB s)
    (hf1 : falsyS pid = false) (hf2 : falsyS note = false)
    (hf3 : falsyQ amount = false) (hf4 : falsyS r = false)
    (hpool : pool = true)
    (hfind : s.proofs.find? (fun e => e.id == pid.getD "") = some proof)
    (hnote : proof.noteHash = hash (note.getD ""))
    (hamt : 0 < amount.getD 0)
    (hbal : amount.getD 0 ≤ proof.total - proof.spent + eps) :
    settleSuccessB s.nextTxId sig ((withdrawB hash pool pid note amount r now s).2) =
      { proofs := s.proofs.map fun e =>
          if e.id = pid.getD "" then { e with spent := e.spent + amount.getD 0 } else e,
        txs := s.txs ++
          [⟨s.nextTxId, proof.walletPubkey, pid.getD "", .WITHDRAW,
            amount.getD 0, some (r.getD ""), some sig, .CONFIRMED, now⟩],
        nextTxId := s.nextTxId + 1,
        jobs := s.jobs } := by
  have hold := jobs_txId_lt s hinv
  rw [withdrawB_accept hash pool pid note amount r now s proof hf1 hf2 hf3 hf4
    hpool hfind hnote hamt hbal]
  simp only [settleSuccessB]
  have hjf : ((s.jobs ++ [(⟨s.nextTxId, pid.getD "", amount.getD 0, r.getD ""⟩ : Job)]).find?
      (fun j => j.txId == s.nextTxId))
        = some (⟨s.nextTxId, pid.getD "", amount.getD 0, r.getD ""⟩ : Job) := by
    rw [List.find?_append]
    have h1 : s.jobs.find? (fun j => j.txId == s.nextTxId) = none := by
      rw [List.find?_eq_none]
      intro jb hjb
      simpa using hold jb hjb
    rw [h1]
    simp
  rw [hjf]
  simp only [StateB.mk.injEq]
  refine ⟨trivial, ?_, trivial, ?_⟩
  · rw [List.map_append]
    refine congrArg₂ _ ?_ ?_
    · calc (s.txs.map _) = s.txs.map id := by
            refine List.map_congr_left ?_
            intro t ht
            rw [if_neg (Nat.ne_of_lt (hinv.txIdLt t ht))]
            rfl
        _ = s.txs := List.map_id _
    · simp
  · rw [List.filter_append]
    have h2 : s.jobs.filter (fun j => !(j.txId == s.nextTxId)) = s.jobs := by
      refine List.filter_eq_self.mpr ?_
      intro jb hjb
      simpa using hold jb hjb
    rw [h2]
    simp

/-- A transaction row in a terminal status is never modified by any later
serialized operation: it stays in the table unchanged. -/
theorem terminal_persists (hash : String → String) (pool : Bool)
    (s : StateB) (op : OpB) (hinv : InvB s) (t : TxnB) (ht : t ∈ s.txs)
    (hstat : t.status ≠ .PENDING) : t ∈ (stepB hash pool s op).txs := by
  cases op with
  | gen w pid note now =>
    simp only [stepB, generateB]
    split
    · exact ht
    · split
      · exact ht
      · exact ht
  | dep w pid amt sig now =>
    simp only [stepB, depositB]
    split
    · exact ht
    · split
      · exact ht
      · split
        · exact ht
        · exact List.mem_append.mpr (Or.inl ht)
  | wd pid note amt r now =>
    simp only [stepB, withdrawB]
    split
    · exact ht
    · split
      · exact ht
      · split
        · exact ht
        · split
          · exact ht
          · split
            · exact ht
            · split
              · exact ht
              · exact List.mem_append.mpr (Or.inl ht)
  | stS txId sig =>
    simp only [stepB, settleSuccessB]
    split
    · exact ht
    · next j hjfind =>
      have hjmem := List.mem_of_find?_eq_some hjfind
      have hjid : j.txId = txId := by
        have := List.find?_some hjfind
        simpa using this
      obtain ⟨t', ht', htid', hstat', _, _⟩ := hinv.jobTx j hjmem
      have htne : t.id ≠ txId := by
        intro hc
        have : t = t' := key_inj hinv.txIdNodup ht ht' (hc.trans (hjid ▸ htid'.symm))
        rw [this] at hstat
        exact hstat hstat'
      refine mem_map_self ht ?_
      rw [if_neg htne]
  | stF txId =>
    simp only [stepB, settleFailB]
    split
    · exact ht
    · next j hjfind =>
      have hjmem := List.mem_of_find?_eq_some hjfind
      have hjid : j.txId = txId := by
        have := List.find?_some hjfind
        simpa using this
      obtain ⟨t', ht', htid', hstat', _, _⟩ := hinv.jobTx j hjmem
      have htne : t.id ≠ txId := by
        intro hc
        have : t = t' := key_inj hinv.txIdNodup ht ht' (hc.trans (hjid ▸ htid'.symm))
        rw [this] at hstat
        exact hstat hstat'
      refine mem_map_self ht ?_
      rw [if_neg htne]

/-- Under the invariant, filtering variant B's transactions by the
denormalized wallet column is the same as filtering by ledger-entry
ownership. -/
theorem filter_wallet_eq_ownedB (s : StateB) (hinv : InvB s) (w : String) :
    s.txs.filter (fun t => t.walletPubkey == w)
      = s.txs.filter (fun t => decide (ownedTxB s w t)) := by
  refine List.filter_congr ?_
  intro t ht
  refine Bool.eq_iff_iff.mpr ?_
  simp only [beq_iff_eq, decide_eq_true_eq]
  constructor
  · intro hw
    obtain ⟨e, he, hei⟩ := hinv.txEntry t ht
    exact ⟨e, he, hei, (hinv.txOwner t ht e he hei).symm.trans hw⟩
  · rintro ⟨e, he, hei, hew⟩
    exact (hinv.txOwner t ht e he hei).trans hew

/-- Under the invariant, filtering variant A's transfers by the
denormalized wallet column is the same as filtering by ledger-entry
ownership. -/
theorem filter_wallet_eq_ownedA (s : StateA) (hinv : InvA s) (w : String) :
    s.transfers.filter (fun t => t.walletPubkey == w)
      = s.transfers.filter (fun t => decide (ownedTrA s w t)) := by
  refine List.filter_congr ?_
  intro t ht
  refine Bool.eq_iff_iff.mpr ?_
  simp only [beq_iff_eq, decide_eq_true_eq]
  constructor
  · intro hw
    obtain ⟨e, he, hei⟩ := hinv.trEntry t ht
    exact ⟨e, he, hei, (hinv.trOwner t ht e he hei).symm.trans hw⟩
  · rintro ⟨e, he, hei, hew⟩
    exact (hinv.trOwner t ht e he hei).trans hew

/-! ### Agreement of the two variants on accumulators -/

/-- With duplicate-free identifiers, variant B's combined lookup by
identifier and wallet factors through variant A's lookup by identifier
followed by the ownership comparison. -/
theorem find?_id_and_wallet (l : List Entry)
    (hnd : (l.map (·.id)).Nodup) (pid w : String) :
    l.find? (fun e => e.id == pid && e.walletPubkey == w)
      = match l.find? (fun e => e.id == pid) with
        | some e => if e.walletPubkey = w then some e else none
        | none => none := by
  induction l with
  | nil => rfl
  | cons a l ih =>
    simp only [List.map_cons, List.nodup_cons] at hnd
    obtain ⟨hain, hndl⟩ := hnd
    by_cases ha : a.id = pid
    · by_cases haw : a.walletPubkey = w
      · simp [List.find?_cons, ha, haw]
      · have hnone : l.find? (fun e => e.id == pid && e.walletPubkey == w) = none := by
          rw [List.find?_eq_none]
          intro e he
          have : e.id ≠ pid := by
            intro hc
            have hmem := List.mem_map_of_mem (·.id) he
            simp only at hmem
            rw [hc, ← ha] at hmem
            exact hain hmem
          simp [this]
        simp [List.find?_cons, ha, haw, hnone]
    · simp only [List.find?_cons]
      have h1 : (a.id == pid && a.walletPubkey == w) = false := by
        simp [ha]
      have h2 : (a.id == pid) = false := by simp [ha]
      rw [h1, h2]
      exact ih hndl

/-- Issuance keeps the two variants' entry tables equal: on a fresh
identifier both insert the same zero-balance entry; on a collision variant
A silently inserts nothing while variant B rejects, so neither mutates. -/
theorem agree_issue (hash : String → String) (w note : String) (now : Nat)
    (sA : StateA) (sB : StateB) (hp : sA.proofs = sB.proofs) :
    (stepAC hash sA (.issue w note now)).proofs
      = (stepBC hash sB (.issue w note now)).proofs := by
  simp only [stepAC, stepBC, generateA, generateB]
  by_cases hw : w = ""
  · simp [falsyS, hw, hp]
  · by_cases hfind :
      (sB.proofs.find? (fun e => e.id == idOfA hash w note)).isSome
    · simp [falsyS, hw, hp, hfind]
    · simp [falsyS, hw, hp, hfind]

/-- Deposits keep the two variants' entry tables equal, provided the
request carries a non-empty settlement reference (variant B rejects
deposits without one; variant A would accept them, which is the content of
a separate claim). -/
theorem agree_dep (hash : String → String) (w pid : String) (amt : Amount)
    (sig : String) (now : Nat) (sA : StateA) (sB : StateB)
    (hp : sA.proofs = sB.proofs) (hnd : (sA.proofs.map (·.id)).Nodup)
    (hsig : sig ≠ "") :
    (stepAC hash sA (.dep w pid amt sig now)).proofs
      = (stepBC hash sB (.dep w pid amt sig now)).proofs := by
  simp only [stepAC, stepBC]
  by_cases hw : w = ""
  · simp [depositA, depositB, falsyS, hw, hp]
  · by_cases hpd : pid = ""
    · simp [depositA, depositB, falsyS, hpd, hw, hp]
    · by_cases hq : amt = 0
      · simp [depositA, depositB, falsyS, falsyQ, hw, hpd, hq, hp]
      · by_cases hneg : amt ≤ 0
        · have hA : (depositA (some w) (some pid) (some amt) (some sig) now sA).2 = sA := by
            simp [depositA, hneg]
          rw [hA]
          cases hfind : sB.proofs.find?
              (fun e => e.id == pid && e.walletPubkey == w) with
          | none =>
            simp [depositB, falsyS, falsyQ, hw, hpd, hq, hsig, hfind, hp]
          | some proof =>
            simp [depositB, falsyS, falsyQ, hw, hpd, hq, hsig, hfind, hneg, hp]
        · have hpos : 0 < amt := lt_of_not_le fun hc => hneg hc
          have hcomb := find?_id_and_wallet sB.proofs (hp ▸ hnd) pid w
          cases hfA : sA.proofs.find? (fun e => e.id == pid) with
          | none =>
            have hcombn : sB.proofs.find?
                (fun e => e.id == pid && e.walletPubkey == w) = none := by
              rw [hcomb, ← hp, hfA]
            have hA : (depositA (some w) (some pid) (some amt) (some sig) now sA).2 = sA := by
              simp [depositA, falsyS, falsyQ, hw, hpd, hq, not_le.mpr hpos, hfA]
            have hB : (depositB (some w) (some pid) (some amt) (some sig) now sB).2 = sB := by
              simp [depositB, falsyS, falsyQ, hw, hpd, hq, hsig, hcombn]
            rw [hA, hB, hp]
          | some proof =>
            by_cases hown : proof.walletPubkey = w
            · have hcombs : sB.proofs.find?
                  (fun e => e.id == pid && e.walletPubkey == w) = some proof := by
                rw [hcomb, ← hp, hfA]
                simp [hown]
              have hf1 : falsyS (some w) = false := by simp [falsyS, hw]
              have hf2 : falsyS (some pid) = false := by simp [falsyS, hpd]
              have hf3 : falsyQ (some amt) = false := by simp [falsyQ, hq]
              have hf4 : falsyS (some sig) = false := by simp [falsyS, hsig]
              have hA := depositA_accept (some w) (some pid) (some amt)
                (some sig) now sA proof hf1 hf2 hf3 hpos hfA hown
              have hB := depositB_accept (some w) (some pid) (some amt)
                (some sig) now sB proof hf1 hf2 hf3 hf4 hcombs hpos
              rw [hA, hB]
              simp [hp]
            · have hcombn : sB.proofs.find?
                  (fun e => e.id == pid && e.walletPubkey == w) = none := by
                rw [hcomb, ← hp, hfA]
                simp [hown]
              have hA : (depositA (some w) (some pid) (some amt) (some sig) now sA).2 = sA := by
                simp [depositA, falsyS, falsyQ, hw, hpd, hq, not_le.mpr hpos,
                  hfA, hown]
              have hB : (depositB (some w) (some pid) (some amt) (some sig) now sB).2 = sB := by
                simp [depositB, falsyS, falsyQ, hw, hpd, hq, hsig, hcombn]
              rw [hA, hB, hp]

/-- Withdrawals keep the two variants' entry tables equal, provided the
requested amount does not fall in the tolerance window
(balance, balance + 1e-9] where only variant B accepts; a successful
settlement never touches the accumulators. -/
theorem agree_wd (hash : String → String) (pid note : String) (amt : Amount)
    (r : String) (now : Nat) (sA : StateA) (sB : StateB)
    (hp : sA.proofs = sB.proofs)
    (hcond : agreeHead sA (.wd pid note amt r now) = true) :
    (stepAC hash sA (.wd pid note amt r now)).proofs
      = (stepBC hash sB (.wd pid note amt r now)).proofs := by
  simp only [stepAC, stepBC, settleSuccessB_proofs]
  by_cases hpd : pid = ""
  · simp [withdrawA, withdrawB, falsyS, hpd, hp]
  · by_cases hnt : note = ""
    · simp [withdrawA, withdrawB, falsyS, hpd, hnt, hp]
    · by_cases hr : r = ""
      · simp [withdrawA, withdrawB, falsyS, hpd, hnt, hr, hp]
      · by_cases hq : amt = 0
        · simp [withdrawA, withdrawB, falsyS, falsyQ, hpd, hnt, hr, hq, hp]
        · by_cases hneg : amt ≤ 0
          · have hA : (withdrawA hash (some pid) (some note) (some amt)
                (some r) none now sA).2 = sA := by
              simp [withdrawA, hneg]
            rw [hA]
            cases hfB : sB.proofs.find? (fun e => e.id == pid) with
            | none =>
              simp [withdrawB, falsyS, falsyQ, hpd, hnt, hr, hq, hfB, hp]
            | some proof =>
              by_cases hnote : proof.noteHash = hash note
              · simp [withdrawB, falsyS, falsyQ, hpd, hnt, hr, hq, hfB, hnote,
                  hneg, hp]
              · simp [withdrawB, falsyS, falsyQ, hpd, hnt, hr, hq, hfB, hnote,
                  hp]
          · have hpos : 0 < amt := lt_of_not_le fun hc => hneg hc
            have hf1 : falsyS (some pid) = false := by simp [falsyS, hpd]
            have hf2 : falsyS (some note) = false := by simp [falsyS, hnt]
            have hf3 : falsyQ (some amt) = false := by simp [falsyQ, hq]
            have hf4 : falsyS (some r) = false := by simp [falsyS, hr]
            cases hfA : sA.proofs.find? (fun e => e.id == pid) with
            | none =>
              have hfB : sB.proofs.find? (fun e => e.id == pid) = none := by
                rw [← hp]; exact hfA
              have hA : (withdrawA hash (some pid) (some note) (some amt)
                  (some r) none now sA).2 = sA := by
                simp [withdrawA, falsyS, falsyQ, hpd, hnt, hr, hq,
                  not_le.mpr hpos, hfA]
              have hB : (withdrawB hash true (some pid) (some note) (some amt)
                  (some r) now sB).2 = sB := by
                simp [withdrawB, falsyS, falsyQ, hpd, hnt, hr, hq, hfB]
              rw [hA, hB, hp]
            | some proof =>
              have hfB : sB.proofs.find? (fun e => e.id == pid) = some proof := by
                rw [← hp]; exact hfA
              by_cases hnote : proof.noteHash = hash note
              · by_cases hb1 : amt ≤ proof.total - proof.spent
                · have hA := withdrawA_accept hash (some pid) (some note)
                    (some amt) (some r) none now sA proof hf1 hf2 hf4 hf3
                    hpos hfA hnote hb1
                  have hbal : amt ≤ proof.total - proof.spent + eps :=
                    le_trans hb1 (by linarith [eps_pos])
                  have hB := withdrawB_accept hash true (some pid) (some note)
                    (some amt) (some r) now sB proof hf1 hf2 hf3 hf4 rfl hfB
                    hnote hpos hbal
                  rw [hA, hB]
                  simp [hp]
                · have hlt : proof.total - proof.spent < amt := lt_of_not_le hb1
                  have hcond2 : ¬ (amt ≤ proof.total - proof.spent + eps) := by
                    simp only [agreeHead, hfA, Bool.not_eq_true', Bool.and_eq_false_iff,
                      decide_eq_false_iff_not, not_lt] at hcond
                    rcases hcond with hc | hc
                    · exact absurd hlt (not_lt.mpr hc)
                    · exact hc
                  have hbal : proof.total - proof.spent + eps < amt :=
                    lt_of_not_le hcond2
                  have hA := withdrawA_insufficient hash (some pid) (some note)
                    (some amt) (some r) none now sA proof hf1 hf2 hf4 hf3
                    hpos hfA hnote hlt
                  have hB := withdrawB_insufficient hash true (some pid)
                    (some note) (some amt) (some r) now sB proof hf1 hf2 hf3
                    hf4 rfl hfB hnote hpos hbal
                  rw [show (withdrawA hash (some pid) (some note) (some amt)
                      (some r) none now sA).2 = sA from by rw [hA],
                    show (withdrawB hash true (some pid) (some note) (some amt)
                      (some r) now sB).2 = sB from by rw [hB], hp]
              · have hA := withdrawA_auth hash (some pid) (some note)
                  (some amt) (some r) none now sA proof hf1 hf2 hf4 hf3
                  hpos hfA hnote
                have hB := withdrawB_auth hash true (some pid) (some note)
                  (some amt) (some r) now sB proof hf1 hf2 hf3 hf4 rfl hfB
                  hnote
                rw [show (withdrawA hash (some pid) (some note) (some amt)
                    (some r) none now sA).2 = sA from by rw [hA],
                  show (withdrawB hash true (some pid) (some note) (some amt)
                    (some r) now sB).2 = sB from by rw [hB], hp]

/-- Trace-level agreement of the two variants on the ledger entries,
by induction along the trace. -/
theorem agree_run_aux (hash : String → String) :
    ∀ (ops : List OpC) (sA : StateA) (sB : StateB), InvA sA →
      sA.proofs = sB.proofs → agreeOk hash sA ops = true →
      (ops.foldl (stepAC hash) sA).proofs = (ops.foldl (stepBC hash) sB).proofs := by
  intro ops
  induction ops with
  | nil =>
    intro sA sB _ hp _
    exact hp
  | cons op ops ih =>
    intro sA sB hInv hp hok
    simp only [agreeOk, Bool.and_eq_true] at hok
    obtain ⟨hhead, hrest⟩ := hok
    have hstep : (stepAC hash sA op).proofs = (stepBC hash sB op).proofs := by
      cases op with
      | issue w note now => exact agree_issue hash w note now sA sB hp
      | dep w pid amt sig now =>
        have hsig : sig ≠ "" := by simpa [agreeHead] using hhead
        exact agree_dep hash w pid amt sig now sA sB hp hInv.idNodup hsig
      | wd pid note amt r now =>
        exact agree_wd hash pid note amt r now sA sB hp hhead
    have hInv2 : InvA (stepAC hash sA op) := by
      cases op with
      | issue w note now => exact invA_gen hash (some w) note now sA hInv
      | dep w pid amt sig now =>
        exact invA_dep (some w) (some pid) (some amt) (some sig) now sA hInv
      | wd pid note amt r now =>
        exact invA_wd hash (some pid) (some note) (some amt) (some r) none
          now sA hInv
    simp only [List.foldl_cons]
    exact ih (stepAC hash sA op) (stepBC hash sB op) hInv2 hstep hrest

/-! ### Claim theorems -/

/-- A present non-zero numeric field is not falsy. -/
theorem falsyQ_of_ne (q : Amount) (h : q ≠ 0) : falsyQ (some q) = false := by
  simp [falsyQ, h]

/-- C1, counterexample.  In the SQLite variant, issuing an identifier and
then withdrawing 2⁻³⁰ (≈ 9.3e-10, inside the 1e-9 tolerance of the balance
check) from the zero-balance entry commits a withdrawal, after which
`withdrawn ≤ deposited` is false: the entry has spent 2⁻³⁰ > total 0.
2⁻³⁰ is exactly representable as an IEEE double, and 2⁻³⁰ < 1e-9 holds in
double arithmetic exactly as it does here over ℚ, so the JavaScript takes
the same branch. -/
theorem c1_counterexample :
    ((runB (fun s => s) true
      [.gen (some "w") "ID1" "note" 0,
       .wd (some "ID1") (some "note") (some (1/1073741824)) (some "r") 1]).proofs.all
      (fun e => decide (e.spent ≤ e.total))) = false := by
  have h0 : runB (fun s => s) true
      [.gen (some "w") "ID1" "note" 0,
       .wd (some "ID1") (some "note") (some (1/1073741824)) (some "r") 1]
      = (withdrawB (fun s => s) true (some "ID1") (some "note")
          (some (1/1073741824)) (some "r") 1
          ⟨[⟨"ID1", "w", "note", 0, 0, 0⟩], [], 1, []⟩).2 := rfl
  rw [h0, withdrawB_accept (fun s => s) true (some "ID1") (some "note")
      (some (1/1073741824)) (some "r") 1
      ⟨[⟨"ID1", "w", "note", 0, 0, 0⟩], [], 1, []⟩
      ⟨"ID1", "w", "note", 0, 0, 0⟩ rfl rfl
      (falsyQ_of_ne _ (by norm_num)) rfl rfl rfl rfl
      (by norm_num) (by norm_num [eps])]
  simp only [List.map_cons, List.map_nil, List.all_cons, List.all_nil]
  norm_num

/-- C1, amended.  After every committed operation of a serialized trace:
in the PostgreSQL variant `withdrawn ≤ deposited` holds exactly (hence
`balance ≥ 0`); in the SQLite variant only the tolerance-weakened bound
`withdrawn ≤ deposited + 1e-9` holds (hence `balance ≥ -1e-9`), because
its balance check admits amounts up to 1e-9 beyond the available
balance. -/
theorem c1_amended :
    (∀ (hash : String → String) (pool : Bool) (ops : List OpB),
       ∀ e ∈ (runB hash pool ops).proofs, e.spent ≤ e.total + eps) ∧
    (∀ (hash : String → String) (ops : List OpA),
       ∀ e ∈ (runA hash ops).proofs, e.spent ≤ e.total) :=
  ⟨fun hash pool ops => (invB_run hash pool ops).slack,
   fun hash ops => (invA_run hash ops).noOverdraft⟩

/-- C1, witness for the amended theorem at a concrete trace: the freshly
issued zero-balance entry satisfies both bounds. -/
theorem c1_witness :
    ((⟨"ID1", "w", "note", 0, 0, 0⟩ : Entry).spent
        ≤ (⟨"ID1", "w", "note", 0, 0, 0⟩ : Entry).total + eps) ∧
    ((⟨idOfA (fun s => s) "w" "note", "w", "note", 0, 0, 0⟩ : Entry).spent
        ≤ (⟨idOfA (fun s => s) "w" "note", "w", "note", 0, 0, 0⟩ : Entry).total) :=
  ⟨c1_amended.1 (fun s => s) true [.gen (some "w") "ID1" "note" 0] _
      (List.mem_singleton.mpr rfl),
   c1_amended.2 (fun s => s) [.gen (some "w") "note" 0] _
      (List.mem_singleton.mpr rfl)⟩

/-- C2, counterexample.  In the SQLite variant a withdrawal of 2⁻³⁰ from an
entry with available balance 0 has amount strictly greater than
`deposited - withdrawn`, yet the initiate operation does not fail: it
answers PENDING with a transaction id and mutates the `withdrawn`
accumulator. -/
theorem c2_counterexample :
    ((0 : Amount) - 0 < 1/1073741824) ∧
    (withdrawB (fun s => s) true (some "ID1") (some "note")
        (some (1/1073741824)) (some "r") 1
        ⟨[⟨"ID1", "w", "note", 0, 0, 0⟩], [], 1, []⟩).1 = RespB.pendingTx 1 ∧
    (withdrawB (fun s => s) true (some "ID1") (some "note")
        (some (1/1073741824)) (some "r") 1
        ⟨[⟨"ID1", "w", "note", 0, 0, 0⟩], [], 1, []⟩).2.proofs
      ≠ [⟨"ID1", "w", "note", 0, 0, 0⟩] := by
  rw [withdrawB_accept (fun s => s) true (some "ID1") (some "note")
      (some (1/1073741824)) (some "r") 1
      ⟨[⟨"ID1", "w", "note", 0, 0, 0⟩], [], 1, []⟩
      ⟨"ID1", "w", "note", 0, 0, 0⟩ rfl rfl
      (falsyQ_of_ne _ (by norm_num)) rfl rfl rfl rfl
      (by norm_num) (by norm_num [eps])]
  refine ⟨by norm_num, rfl, ?_⟩
  intro h
  simp only [Option.getD_some, List.map_cons, List.map_nil, if_true] at h
  norm_num [Entry.mk.injEq] at h

/-- C2, amended.  A withdrawal requesting more than the available balance
fails with the insufficient-balance error and mutates nothing — exactly at
the `amount > deposited - withdrawn` threshold in the PostgreSQL variant,
but only beyond `amount > deposited - withdrawn + 1e-9` in the SQLite
variant (amounts inside the tolerance window are accepted, as the
counterexample shows). -/
theorem c2_amended :
    (∀ (hash : String → String) (pid note : Option String)
       (amount : Option Amount) (r sigo : Option String) (now : Nat)
       (s : StateA) (proof : Entry),
       falsyS pid = false → falsyS note = false → falsyS r = false →
       falsyQ amount = false → 0 < amount.getD 0 →
       s.proofs.find? (fun e => e.id == pid.getD "") = some proof →
       proof.noteHash = hash (note.getD "") →
       proof.total - proof.spent < amount.getD 0 →
       withdrawA hash pid note amount r sigo now s = (.insufficient, s)) ∧
    (∀ (hash : String → String) (pool : Bool) (pid note : Option String)
       (amount : Option Amount) (r : Option String) (now : Nat)
       (s : StateB) (proof : Entry),
       falsyS pid = false → falsyS note = false → falsyQ amount = false →
       falsyS r = false → pool = true →
       s.proofs.find? (fun e => e.id == pid.getD "") = some proof →
       proof.noteHash = hash (note.getD "") → 0 < amount.getD 0 →
       proof.total - proof.spent + eps < amount.getD 0 →
       withdrawB hash pool pid note amount r now s = (.insufficient, s)) :=
  ⟨fun hash pid note amount r sigo now s proof hf1 hf2 hf3 hf4 hamt hfind
      hnote hbal =>
    withdrawA_insufficient hash pid note amount r sigo now s proof hf1 hf2
      hf3 hf4 hamt hfind hnote hbal,
   fun hash pool pid note amount r now s proof hf1 hf2 hf3 hf4 hpool hfind
      hnote hamt hbal =>
    withdrawB_insufficient hash pool pid note amount r now s proof hf1 hf2
      hf3 hf4 hpool hfind hnote hamt hbal⟩

/-- C2, witness: a withdrawal of 1 from a zero-balance entry is rejected
with no mutation by both variants. -/
theorem c2_witness :
    withdrawA (fun s => s) (some "ID1") (some "note") (some 1) (some "r")
        none 1 ⟨[⟨"ID1", "w", "note", 0, 0, 0⟩], [], 1⟩
      = (.insufficient, ⟨[⟨"ID1", "w", "note", 0, 0, 0⟩], [], 1⟩) ∧
    withdrawB (fun s => s) true (some "ID1") (some "note") (some 1)
        (some "r") 1 ⟨[⟨"ID1", "w", "note", 0, 0, 0⟩], [], 1, []⟩
      = (.insufficient, ⟨[⟨"ID1", "w", "note", 0, 0, 0⟩], [], 1, []⟩) :=
  ⟨c2_amended.1 (fun s => s) (some "ID1") (some "note") (some 1) (some "r")
      none 1 _ ⟨"ID1", "w", "note", 0, 0, 0⟩ rfl rfl rfl
      (falsyQ_of_ne _ (by norm_num)) (by norm_num) rfl rfl (by norm_num),
   c2_amended.2 (fun s => s) true (some "ID1") (some "note") (some 1)
      (some "r") 1 _ ⟨"ID1", "w", "note", 0, 0, 0⟩ rfl rfl
      (falsyQ_of_ne _ (by norm_num)) rfl rfl rfl rfl (by norm_num)
      (by norm_num [eps])⟩

/-- C3.  In both variants, a withdrawal whose secret note hashes to
something other than the stored noteHash of the addressed entry is rejected
with the authorization error (403 in the SQLite variant, 400 invalid-note
in the PostgreSQL variant) and the state — accumulators and transaction
log — is returned untouched. -/
theorem c3_theorem :
    (∀ (hash : String → String) (pool : Bool) (pid note : Option String)
       (amount : Option Amount) (r : Option String) (now : Nat)
       (s : StateB) (proof : Entry),
       falsyS pid = false → falsyS note = false → falsyQ amount = false →
       falsyS r = false → pool = true →
       s.proofs.find? (fun e => e.id == pid.getD "") = some proof →
       proof.noteHash ≠ hash (note.getD "") →
       withdrawB hash pool pid note amount r now s = (.authError, s)) ∧
    (∀ (hash : String → String) (pid note : Option String)
       (amount : Option Amount) (r sigo : Option String) (now : Nat)
       (s : StateA) (proof : Entry),
       falsyS pid = false → falsyS note = false → falsyS r = false →
       falsyQ amount = false → 0 < amount.getD 0 →
       s.proofs.find? (fun e => e.id == pid.getD "") = some proof →
       proof.noteHash ≠ hash (note.getD "") →
       withdrawA hash pid note amount r sigo now s = (.invalidNote, s)) :=
  ⟨fun hash pool pid note amount r now s proof hf1 hf2 hf3 hf4 hpool hfind
      hnote =>
    withdrawB_auth hash pool pid note amount r now s proof hf1 hf2 hf3 hf4
      hpool hfind hnote,
   fun hash pid note amount r sigo now s proof hf1 hf2 hf3 hf4 hamt hfind
      hnote =>
    withdrawA_auth hash pid note amount r sigo now s proof hf1 hf2 hf3 hf4
      hamt hfind hnote⟩

/-- C3, witness: a withdrawal presenting the wrong note "bad" against an
entry whose stored digest is of "note" is rejected without mutation by
both variants (the hash function is instantiated with the identity). -/
theorem c3_witness :
    withdrawB (fun s => s) true (some "ID1") (some "bad") (some 1)
        (some "r") 1 ⟨[⟨"ID1", "w", "note", 5, 0, 0⟩], [], 1, []⟩
      = (.authError, ⟨[⟨"ID1", "w", "note", 5, 0, 0⟩], [], 1, []⟩) ∧
    withdrawA (fun s => s) (some "ID1") (some "bad") (some 1) (some "r")
        none 1 ⟨[⟨"ID1", "w", "note", 5, 0, 0⟩], [], 1⟩
      = (.invalidNote, ⟨[⟨"ID1", "w", "note", 5, 0, 0⟩], [], 1⟩) :=
  ⟨c3_theorem.1 (fun s => s) true (some "ID1") (some "bad") (some 1)
      (some "r") 1 _ ⟨"ID1", "w", "note", 5, 0, 0⟩ rfl rfl
      (falsyQ_of_ne _ (by norm_num)) rfl rfl rfl (by decide),
   c3_theorem.2 (fun s => s) (some "ID1") (some "bad") (some 1) (some "r")
      none 1 _ ⟨"ID1", "w", "note", 5, 0, 0⟩ rfl rfl rfl
      (falsyQ_of_ne _ (by norm_num)) (by norm_num) rfl (by decide)⟩

/-- C4.  In the SQLite variant, when the settlement of a reserved
withdrawal fails, the single compensating transition (`db.transaction`
wrapping both updates, hence atomic) sets the created LedgerTransaction to
FAILED and decrements `withdrawn` by exactly the reserved amount: the whole
entry table returns to its exact pre-reservation contents. -/
theorem c4_theorem (hash : String → String) (pool : Bool) (ops : List OpB)
    (pid note : Option String) (amount : Option Amount)
    (r : Option String) (now : Nat) (proof : Entry)
    (hf1 : falsyS pid = false) (hf2 : falsyS note = false)
    (hf3 : falsyQ amount = false) (hf4 : falsyS r = false)
    (hpool : pool = true)
    (hfind : (runB hash pool ops).proofs.find?
      (fun e => e.id == pid.getD "") = some proof)
    (hnote : proof.noteHash = hash (note.getD ""))
    (hamt : 0 < amount.getD 0)
    (hbal : amount.getD 0 ≤ proof.total - proof.spent + eps) :
    settleFailB (runB hash pool ops).nextTxId
        ((withdrawB hash pool pid note amount r now (runB hash pool ops)).2) =
      { proofs := (runB hash pool ops).proofs,
        txs := (runB hash pool ops).txs ++
          [⟨(runB hash pool ops).nextTxId, proof.walletPubkey, pid.getD "",
            .WITHDRAW, amount.getD 0, some (r.getD ""), none, .FAILED, now⟩],
        nextTxId := (runB hash pool ops).nextTxId + 1,
        jobs := (runB hash pool ops).jobs } :=
  settleFailB_restores hash pool pid note amount r now (runB hash pool ops)
    proof (invB_run hash pool ops) hf1 hf2 hf3 hf4 hpool hfind hnote hamt hbal

/-- C4, witness: after issuing an identifier, a withdrawal of 1/2e9 (within
the tolerance of the zero balance) followed by a failed settlement leaves
the entry table exactly as issued, with one FAILED transaction logged. -/
theorem c4_witness :
    settleFailB (runB (fun s => s) true [.gen (some "w") "ID1" "note" 0]).nextTxId
        ((withdrawB (fun s => s) true (some "ID1") (some "note")
          (some (1/2000000000)) (some "r") 1
          (runB (fun s => s) true [.gen (some "w") "ID1" "note" 0])).2) =
      { proofs := (runB (fun s => s) true [.gen (some "w") "ID1" "note" 0]).proofs,
        txs := (runB (fun s => s) true [.gen (some "w") "ID1" "note" 0]).txs ++
          [⟨(runB (fun s => s) true [.gen (some "w") "ID1" "note" 0]).nextTxId,
            "w", "ID1", .WITHDRAW, 1/2000000000, some "r", none, .FAILED, 1⟩],
        nextTxId := (runB (fun s => s) true [.gen (some "w") "ID1" "note" 0]).nextTxId + 1,
        jobs := (runB (fun s => s) true [.gen (some "w") "ID1" "note" 0]).jobs } :=
  c4_theorem (fun s => s) true [.gen (some "w") "ID1" "note" 0]
    (some "ID1") (some "note") (some (1/2000000000)) (some "r") 1
    ⟨"ID1", "w", "note", 0, 0, 0⟩ rfl rfl
    (falsyQ_of_ne _ (by norm_num)) rfl rfl rfl rfl (by norm_num)
    (by norm_num [eps])

/-- C5, counterexample.  In the SQLite variant a valid, owner-matching
deposit does commit (one transaction row is appended) but the caller gets
only the bare `ok` response, which carries no balance: the claim's
"returns the updated balance to the caller" is false for this variant. -/
theorem c5_counterexample :
    (depositB (some "w") (some "ID1") (some 5) (some "sig") 1
        ⟨[⟨"ID1", "w", "note", 0, 0, 0⟩], [], 1, []⟩).1 = RespB.okFlag ∧
    (depositB (some "w") (some "ID1") (some 5) (some "sig") 1
        ⟨[⟨"ID1", "w", "note", 0, 0, 0⟩], [], 1, []⟩).2.txs.length = 1 := by
  rw [depositB_accept (some "w") (some "ID1") (some 5) (some "sig") 1
      ⟨[⟨"ID1", "w", "note", 0, 0, 0⟩], [], 1, []⟩
      ⟨"ID1", "w", "note", 0, 0, 0⟩ rfl rfl
      (falsyQ_of_ne _ (by norm_num)) rfl rfl (by norm_num)]
  exact ⟨rfl, rfl⟩

/-- C5, amended.  A valid, owner-matching deposit atomically increments
`deposited` by the amount and appends exactly one DEPOSIT transaction; the
PostgreSQL variant returns the updated balance to the caller but its
transfer log has no status column, while the SQLite variant stamps the
transaction CONFIRMED but returns only an ok flag with no balance. -/
theorem c5_amended :
    (∀ (w pid : Option String) (amount : Option Amount)
       (sigo : Option String) (now : Nat) (s : StateA) (proof : Entry),
       falsyS w = false → falsyS pid = false → falsyQ amount = false →
       0 < amount.getD 0 →
       s.proofs.find? (fun e => e.id == pid.getD "") = some proof →
       proof.walletPubkey = w.getD "" →
       depositA w pid amount sigo now s =
         (.depositOk (pid.getD "") (proof.total + amount.getD 0 - proof.spent)
           (proof.total + amount.getD 0) proof.spent,
          { proofs := s.proofs.map fun e =>
              if e.id = pid.getD "" then { e with total := e.total + amount.getD 0 } else e,
            transfers := s.transfers ++
              [⟨s.nextTransferId, pid.getD "", w.getD "", .DEPOSIT,
                amount.getD 0, none, if falsyS sigo then none else sigo, now⟩],
            nextTransferId := s.nextTransferId + 1 })) ∧
    (∀ (w pid : Option String) (amount : Option Amount)
       (sigo : Option String) (now : Nat) (s : StateB) (proof : Entry),
       falsyS w = false → falsyS pid = false → falsyQ amount = false →
       falsyS sigo = false →
       s.proofs.find?
         (fun e => e.id == pid.getD "" && e.walletPubkey == w.getD "") = some proof →
       0 < amount.getD 0 →
       depositB w pid amount sigo now s =
         (.okFlag,
          { proofs := s.proofs.map fun e =>
              if e.id = pid.getD "" then { e with total := e.total + amount.getD 0 } else e,
            txs := s.txs ++
              [⟨s.nextTxId, w.getD "", pid.getD "", .DEPOSIT, amount.getD 0,
                some "shielded_pool", some (sigo.getD ""), .CONFIRMED, now⟩],
            nextTxId := s.nextTxId + 1,
            jobs := s.jobs })) :=
  ⟨fun w pid amount sigo now s proof hf1 hf2 hf3 hamt hfind hown =>
    depositA_accept w pid amount sigo now s proof hf1 hf2 hf3 hamt hfind hown,
   fun w pid amount sigo now s proof hf1 hf2 hf3 hf4 hfind hamt =>
    depositB_accept w pid amount sigo now s proof hf1 hf2 hf3 hf4 hfind hamt⟩

/-- C5, witness: concrete applications of both deposit branches — variant A
without a settlement reference, variant B with one. -/
theorem c5_witness :
    (depositA (some "w") (some "ID1") (some 5) none 1
        ⟨[⟨"ID1", "w", "note", 0, 0, 0⟩], [], 1⟩ =
      (.depositOk "ID1" (0 + 5 - 0) (0 + 5) 0,
       { proofs := [⟨"ID1", "w", "note", 0, 0, 0⟩].map fun e =>
           if e.id = "ID1" then { e with total := e.total + 5 } else e,
         transfers := [] ++ [⟨1, "ID1", "w", .DEPOSIT, 5, none, none, 1⟩],
         nextTransferId := 2 })) ∧
    (depositB (some "w") (some "ID1") (some 5) (some "sig") 1
        ⟨[⟨"ID1", "w", "note", 0, 0, 0⟩], [], 1, []⟩ =
      (.okFlag,
       { proofs := [⟨"ID1", "w", "note", 0, 0, 0⟩].map fun e =>
           if e.id = "ID1" then { e with total := e.total + 5 } else e,
         txs := [] ++ [⟨1, "w", "ID1", .DEPOSIT, 5, some "shielded_pool",
           some "sig", .CONFIRMED, 1⟩],
         nextTxId := 2,
         jobs := [] })) :=
  ⟨c5_amended.1 (some "w") (some "ID1") (some 5) none 1 _
      ⟨"ID1", "w", "note", 0, 0, 0⟩ rfl rfl
      (falsyQ_of_ne _ (by norm_num)) (by norm_num) rfl rfl,
   c5_amended.2 (some "w") (some "ID1") (some 5) (some "sig") 1 _
      ⟨"ID1", "w", "note", 0, 0, 0⟩ rfl rfl
      (falsyQ_of_ne _ (by norm_num)) rfl rfl (by norm_num)⟩

/-- C6.  The claim is right and the PostgreSQL variant's code is wrong:
its issuance INSERT uses ON CONFLICT (zk_proof_id) DO NOTHING and then
returns the success response unconditionally.  Here the abstract SHA-256
parameter is instantiated with a constant function so that two distinct
secret notes derive the same identifier (exactly the collision event the
claim concerns); the caller of the second issuance receives a success
response carrying a secret note that is unusable — the stored entry keeps
the first note's digest — and nothing is inserted, instead of the
recoverable CollisionError the spec requires.  The SQLite variant does
reject the collision without overwriting, as the second conjunct shows. -/
theorem c6_theorem :
    (generateA (fun _ => "h") (some "w") "note2" 1
        ⟨[⟨idOfA (fun _ => "h") "w" "note1", "w", "h", 0, 0, 0⟩], [], 1⟩
      = (.generated (idOfA (fun _ => "h") "w" "note2") "note2",
         ⟨[⟨idOfA (fun _ => "h") "w" "note1", "w", "h", 0, 0, 0⟩], [], 1⟩)) ∧
    (generateB (fun s => s) (some "w") "ID1" "note2" 1
        ⟨[⟨"ID1", "w", "note", 0, 0, 0⟩], [], 1, []⟩
      = (.collision, ⟨[⟨"ID1", "w", "note", 0, 0, 0⟩], [], 1, []⟩)) := by
  constructor
  · simp [generateA, idOfA, falsyS]
  · rfl

/-- C7.  Withdrawal lifecycle of the SQLite variant, over any reachable
state: (1) an accepted withdrawal creates its LedgerTransaction in PENDING,
and its one outstanding settlement callback transitions it exactly once —
to CONFIRMED with the settlement reference recorded and no further change
to the entry accumulators on success, or to FAILED with compensation on
failure; (2) a transaction in a terminal status is never modified by any
later operation (in particular it never returns to PENDING); (3) a success
settlement never touches the accumulators; (4) once no callback for a
transaction id is outstanding, both settlement updates are no-ops, so a
transaction transitions at most once. -/
theorem c7_theorem (hash : String → String) (pool : Bool) (ops : List OpB) :
    (∀ (pid note : Option String) (amount : Option Amount)
       (r : Option String) (now : Nat) (proof : Entry) (sig : String),
       falsyS pid = false → falsyS note = false → falsyQ amount = false →
       falsyS r = false → pool = true →
       (runB hash pool ops).proofs.find?
         (fun e => e.id == pid.getD "") = some proof →
       proof.noteHash = hash (note.getD "") → 0 < amount.getD 0 →
       amount.getD 0 ≤ proof.total - proof.spent + eps →
       ((withdrawB hash pool pid note amount r now (runB hash pool ops)).2.txs
          = (runB hash pool ops).txs ++
            [⟨(runB hash pool ops).nextTxId, proof.walletPubkey, pid.getD "",
              .WITHDRAW, amount.getD 0, some (r.getD ""), none, .PENDING, now⟩]) ∧
       (settleSuccessB (runB hash pool ops).nextTxId sig
          ((withdrawB hash pool pid note amount r now (runB hash pool ops)).2)
          = { proofs := (runB hash pool ops).proofs.map fun e =>
                if e.id = pid.getD ""
                then { e with spent := e.spent + amount.getD 0 } else e,
              txs := (runB hash pool ops).txs ++
                [⟨(runB hash pool ops).nextTxId, proof.walletPubkey,
                  pid.getD "", .WITHDRAW, amount.getD 0, some (r.getD ""),
                  some sig, .CONFIRMED, now⟩],
              nextTxId := (runB hash pool ops).nextTxId + 1,
              jobs := (runB hash pool ops).jobs }) ∧
       (settleFailB (runB hash pool ops).nextTxId
          ((withdrawB hash pool pid note amount r now (runB hash pool ops)).2)
          = { proofs := (runB hash pool ops).proofs,
              txs := (runB hash pool ops).txs ++
                [⟨(runB hash pool ops).nextTxId, proof.walletPubkey,
                  pid.getD "", .WITHDRAW, amount.getD 0, some (r.getD ""),
                  none, .FAILED, now⟩],
              nextTxId := (runB hash pool ops).nextTxId + 1,
              jobs := (runB hash pool ops).jobs })) ∧
    (∀ (op : OpB) (t : TxnB), t ∈ (runB hash pool ops).txs →
       t.status ≠ .PENDING →
       t ∈ (stepB hash pool (runB hash pool ops) op).txs) ∧
    (∀ (tid : Nat) (sig : String),
       (settleSuccessB tid sig (runB hash pool ops)).proofs
         = (runB hash pool ops).proofs) ∧
    (∀ (tid : Nat) (sig : String),
       (runB hash pool ops).jobs.find? (fun j => j.txId == tid) = none →
       settleSuccessB tid sig (runB hash pool ops) = runB hash pool ops ∧
       settleFailB tid (runB hash pool ops) = runB hash pool ops) := by
  refine ⟨?_, ?_, ?_, ?_⟩
  · intro pid note amount r now proof sig hf1 hf2 hf3 hf4 hpool hfind hnote
      hamt hbal
    refine ⟨?_, ?_, ?_⟩
    · rw [withdrawB_accept hash pool pid note amount r now
        (runB hash pool ops) proof hf1 hf2 hf3 hf4 hpool hfind hnote hamt hbal]
    · exact settleSuccessB_afterWithdraw hash pool pid note amount r now sig
        (runB hash pool ops) proof (invB_run hash pool ops) hf1 hf2 hf3 hf4
        hpool hfind hnote hamt hbal
    · exact settleFailB_restores hash pool pid note amount r now
        (runB hash pool ops) proof (invB_run hash pool ops) hf1 hf2 hf3 hf4
        hpool hfind hnote hamt hbal
  · intro op t ht hstat
    exact terminal_persists hash pool (runB hash pool ops) op
      (invB_run hash pool ops) t ht hstat
  · intro tid sig
    exact settleSuccessB_proofs tid sig (runB hash pool ops)
  · intro tid sig hnone
    constructor
    · simp [settleSuccessB, hnone]
    · simp [settleFailB, hnone]

/-- Concrete evaluation of a short trace of variant B: issue, withdraw
1/2e9 (within the tolerance of the zero balance), settle successfully. -/
theorem runB_eval_demo :
    runB (fun s => s) true
      [.gen (some "w") "ID1" "note" 0,
       .wd (some "ID1") (some "note") (some (1/2000000000)) (some "r") 1,
       .stS 1 "sg"] =
      { proofs := [⟨"ID1", "w", "note", 0, 0 + 1/2000000000, 0⟩],
        txs := [⟨1, "w", "ID1", .WITHDRAW, 1/2000000000, some "r", some "sg",
          .CONFIRMED, 1⟩],
        nextTxId := 2, jobs := [] } := by
  show settleSuccessB
      ((⟨[⟨"ID1", "w", "note", 0, 0, 0⟩], [], 1, []⟩ : StateB)).nextTxId "sg"
      ((withdrawB (fun s => s) true (some "ID1") (some "note")
        (some (1/2000000000)) (some "r") 1
        ⟨[⟨"ID1", "w", "note", 0, 0, 0⟩], [], 1, []⟩).2) = _
  rw [settleSuccessB_afterWithdraw (fun s => s) true (some "ID1")
      (some "note") (some (1/2000000000)) (some "r") 1 "sg"
      ⟨[⟨"ID1", "w", "note", 0, 0, 0⟩], [], 1, []⟩
      ⟨"ID1", "w", "note", 0, 0, 0⟩
      (invB_run (fun s => s) true [.gen (some "w") "ID1" "note" 0])
      rfl rfl (falsyQ_of_ne _ (by norm_num)) rfl rfl rfl rfl (by norm_num)
      (by norm_num [eps])]
  simp

/-- C7, witness: the lifecycle theorem applied to a concrete trace — an
accepted withdrawal of 1/2e9 from a freshly issued entry creates a PENDING
transaction, its success settlement records CONFIRMED with the reference
and keeps the reservation, its failure settlement records FAILED and
restores the entry; a CONFIRMED transaction survives a later operation
unchanged; settlements on ids with no outstanding callback are no-ops. -/
theorem c7_witness :
    (((withdrawB (fun s => s) true (some "ID1") (some "note")
        (some (1/2000000000)) (some "r") 1
        (runB (fun s => s) true [.gen (some "w") "ID1" "note" 0])).2.txs
      = (runB (fun s => s) true [.gen (some "w") "ID1" "note" 0]).txs ++
        [⟨(runB (fun s => s) true [.gen (some "w") "ID1" "note" 0]).nextTxId,
          "w", "ID1", .WITHDRAW, 1/2000000000, some "r", none, .PENDING, 1⟩]) ∧
     (settleSuccessB
        (runB (fun s => s) true [.gen (some "w") "ID1" "note" 0]).nextTxId "sg"
        ((withdrawB (fun s => s) true (some "ID1") (some "note")
          (some (1/2000000000)) (some "r") 1
          (runB (fun s => s) true [.gen (some "w") "ID1" "note" 0])).2)
       = { proofs := (runB (fun s => s) true
             [.gen (some "w") "ID1" "note" 0]).proofs.map fun e =>
               if e.id = "ID1" then { e with spent := e.spent + 1/2000000000 }
               else e,
           txs := (runB (fun s => s) true
             [.gen (some "w") "ID1" "note" 0]).txs ++
             [⟨(runB (fun s => s) true
                 [.gen (some "w") "ID1" "note" 0]).nextTxId,
               "w", "ID1", .WITHDRAW, 1/2000000000, some "r", some "sg",
               .CONFIRMED, 1⟩],
           nextTxId := (runB (fun s => s) true
             [.gen (some "w") "ID1" "note" 0]).nextTxId + 1,
           jobs := (runB (fun s => s) true
             [.gen (some "w") "ID1" "note" 0]).jobs }) ∧
     (settleFailB
        (runB (fun s => s) true [.gen (some "w") "ID1" "note" 0]).nextTxId
        ((withdrawB (fun s => s) true (some "ID1") (some "note")
          (some (1/2000000000)) (some "r") 1
          (runB (fun s => s) true [.gen (some "w") "ID1" "note" 0])).2)
       = { proofs := (runB (fun s => s) true
             [.gen (some "w") "ID1" "note" 0]).proofs,
           txs := (runB (fun s => s) true
             [.gen (some "w") "ID1" "note" 0]).txs ++
             [⟨(runB (fun s => s) true
                 [.gen (some "w") "ID1" "note" 0]).nextTxId,
               "w", "ID1", .WITHDRAW, 1/2000000000, some "r", none, .FAILED, 1⟩],
           nextTxId := (runB (fun s => s) true
             [.gen (some "w") "ID1" "note" 0]).nextTxId + 1,
           jobs := (runB (fun s => s) true
             [.gen (some "w") "ID1" "note" 0]).jobs })) ∧
    ((⟨1, "w", "ID1", .WITHDRAW, 1/2000000000, some "r", some "sg",
        .CONFIRMED, 1⟩ : TxnB)
      ∈ (stepB (fun s => s) true
          (runB (fun s => s) true
            [.gen (some "w") "ID1" "note" 0,
             .wd (some "ID1") (some "note") (some (1/2000000000)) (some "r") 1,
             .stS 1 "sg"]) (.stF 1)).txs) ∧
    ((settleSuccessB 5 "x"
        (runB (fun s => s) true [.gen (some "w") "ID1" "note" 0])).proofs
      = (runB (fun s => s) true [.gen (some "w") "ID1" "note" 0]).proofs) ∧
    (settleSuccessB 5 "x" (runB (fun s => s) true [.gen (some "w") "ID1" "note" 0])
        = runB (fun s => s) true [.gen (some "w") "ID1" "note" 0] ∧
     settleFailB 5 (runB (fun s => s) true [.gen (some "w") "ID1" "note" 0])
        = runB (fun s => s) true [.gen (some "w") "ID1" "note" 0]) := by
  refine ⟨?_, ?_, ?_, ?_⟩
  · exact (c7_theorem (fun s => s) true [.gen (some "w") "ID1" "note" 0]).1
      (some "ID1") (some "note") (some (1/2000000000)) (some "r") 1
      ⟨"ID1", "w", "note", 0, 0, 0⟩ "sg" rfl rfl
      (falsyQ_of_ne _ (by norm_num)) rfl rfl rfl rfl (by norm_num)
      (by norm_num [eps])
  · refine (c7_theorem (fun s => s) true
      [.gen (some "w") "ID1" "note" 0,
       .wd (some "ID1") (some "note") (some (1/2000000000)) (some "r") 1,
       .stS 1 "sg"]).2.1 (.stF 1) _ ?_ (by decide)
    rw [runB_eval_demo]
    exact List.mem_singleton.mpr rfl
  · exact (c7_theorem (fun s => s) true [.gen (some "w") "ID1" "note" 0]).2.2.1 5 "x"
  · exact (c7_theorem (fun s => s) true [.gen (some "w") "ID1" "note" 0]).2.2.2 5 "x" rfl

/-- Repeated valid deposits against one entry: each appends exactly one
transaction carrying the owner's wallet, and the combined lookup keeps
succeeding. -/
theorem dep_repeat_facts (n : Nat) : ∀ (s : StateB) (p : Entry),
    s.proofs.find? (fun e => e.id == "ID1" && e.walletPubkey == "w") = some p →
    (∀ t ∈ s.txs, t.walletPubkey = "w") →
    (((List.replicate n (OpB.dep (some "w") (some "ID1") (some (1 : Amount))
        (some "g") 0)).foldl (stepB (fun x => x) true) s).txs.length
      = s.txs.length + n) ∧
    (∀ t ∈ ((List.replicate n (OpB.dep (some "w") (some "ID1")
        (some (1 : Amount)) (some "g") 0)).foldl
        (stepB (fun x => x) true) s).txs, t.walletPubkey = "w") := by
  induction n with
  | zero =>
    intro s p _ hw
    simpa using hw
  | succ n ih =>
    intro s p hf hw
    rw [List.replicate_succ, List.foldl_cons]
    have hstep : stepB (fun x => x) true s
        (OpB.dep (some "w") (some "ID1") (some 1) (some "g") 0)
        = { proofs := s.proofs.map fun e =>
              if e.id = "ID1" then { e with total := e.total + 1 } else e,
            txs := s.txs ++ [⟨s.nextTxId, "w", "ID1", .DEPOSIT, 1,
              some "shielded_pool", some "g", .CONFIRMED, 0⟩],
            nextTxId := s.nextTxId + 1, jobs := s.jobs } := by
      show (depositB (some "w") (some "ID1") (some 1) (some "g") 0 s).2 = _
      rw [depositB_accept (some "w") (some "ID1") (some 1) (some "g") 0 s p
        rfl rfl (falsyQ_of_ne _ (by norm_num)) rfl hf (by norm_num)]
      rfl
    rw [hstep]
    have hpres : ∀ e : Entry,
        ((fun e : Entry => e.id == "ID1" && e.walletPubkey == "w")
          ((fun e : Entry => if e.id = "ID1"
              then { e with total := e.total + 1 } else e) e))
          = (fun e : Entry => e.id == "ID1" && e.walletPubkey == "w") e := by
      intro e; by_cases he : e.id = "ID1" <;> simp [he]
    have hf2 : (s.proofs.map fun e =>
        if e.id = "ID1" then { e with total := e.total + 1 } else e).find?
          (fun e => e.id == "ID1" && e.walletPubkey == "w")
        = some (if p.id = "ID1" then { p with total := p.total + 1 } else p) := by
      rw [find?_map_key hpres, hf]
      rfl
    obtain ⟨ihl, ihw⟩ := ih
      ⟨s.proofs.map fun e =>
          if e.id = "ID1" then { e with total := e.total + 1 } else e,
        s.txs ++ [⟨s.nextTxId, "w", "ID1", .DEPOSIT, 1,
          some "shielded_pool", some "g", .CONFIRMED, 0⟩],
        s.nextTxId + 1, s.jobs⟩
      (if p.id = "ID1" then { p with total := p.total + 1 } else p)
      hf2
      (by intro t ht
          have ht2 : t ∈ s.txs ++ [⟨s.nextTxId, "w", "ID1", .DEPOSIT, 1,
              some "shielded_pool", some "g", .CONFIRMED, 0⟩] := ht
          rcases List.mem_append.mp ht2 with ht3 | ht3
          · exact hw t ht3
          · simp only [List.mem_singleton] at ht3
            subst ht3
            rfl)
    refine ⟨?_, ihw⟩
    rw [ihl]
    simp only [List.length_append, List.length_cons, List.length_nil]
    omega

/-- C8, counterexample.  The SQLite variant's history query has no LIMIT
clause: after issuing one identifier and recording 201 valid deposits, the
History Reader returns 201 entries for the wallet, exceeding the claimed
cap of 200. -/
theorem c8_counterexample :
    200 < (historyB "w"
      (runB (fun x => x) true
        (OpB.gen (some "w") "ID1" "note" 0 ::
         List.replicate 201 (OpB.dep (some "w") (some "ID1")
           (some (1 : Amount)) (some "g") 0)))).1.length := by
  have h0 : runB (fun x => x) true
      (OpB.gen (some "w") "ID1" "note" 0 ::
       List.replicate 201 (OpB.dep (some "w") (some "ID1")
         (some (1 : Amount)) (some "g") 0))
      = (List.replicate 201 (OpB.dep (some "w") (some "ID1")
          (some (1 : Amount)) (some "g") 0)).foldl (stepB (fun x => x) true)
          ⟨[⟨"ID1", "w", "note", 0, 0, 0⟩], [], 1, []⟩ := by
    simp only [runB, List.foldl_cons]
    have hg : stepB (fun x => x) true initB (OpB.gen (some "w") "ID1" "note" 0)
        = ⟨[⟨"ID1", "w", "note", 0, 0, 0⟩], [], 1, []⟩ := rfl
    rw [hg]
  rw [h0]
  obtain ⟨hlen, hwall⟩ := dep_repeat_facts 201
    ⟨[⟨"ID1", "w", "note", 0, 0, 0⟩], [], 1, []⟩
    ⟨"ID1", "w", "note", 0, 0, 0⟩ rfl (by simp)
  simp only [historyB]
  rw [(List.perm_insertionSort newerB _).length_eq]
  rw [List.filter_eq_self.mpr (fun t ht => by simp [hwall t ht])]
  rw [hlen]
  simp

/-- C8, amended.  For every wallet and every reachable state, the History
Reader of either variant is read-only and returns the transactions of
exactly the ledger entries owned by that wallet, newest first; the
PostgreSQL variant caps the result at 200 entries (LIMIT 200), while the
SQLite variant returns all of them with no cap. -/
theorem c8_amended :
    (∀ (hash : String → String) (pool : Bool) (ops : List OpB) (w : String),
       (historyB w (runB hash pool ops)).2 = runB hash pool ops ∧
       List.Sorted newerB (historyB w (runB hash pool ops)).1 ∧
       (historyB w (runB hash pool ops)).1.Perm
         ((runB hash pool ops).txs.filter
           (fun t => decide (ownedTxB (runB hash pool ops) w t)))) ∧
    (∀ (hash : String → String) (ops : List OpA) (w : String),
       (historyA w (runA hash ops)).2 = runA hash ops ∧
       List.Sorted newerA (historyA w (runA hash ops)).1 ∧
       (historyA w (runA hash ops)).1.length ≤ 200 ∧
       (historyA w (runA hash ops)).1 =
         (List.insertionSort newerA
           ((runA hash ops).transfers.filter
             (fun t => decide (ownedTrA (runA hash ops) w t)))).take 200) := by
  constructor
  · intro hash pool ops w
    refine ⟨rfl, List.sorted_insertionSort newerB _, ?_⟩
    refine (List.perm_insertionSort newerB _).trans ?_
    rw [filter_wallet_eq_ownedB (runB hash pool ops)
      (invB_run hash pool ops) w]
  · intro hash ops w
    refine ⟨rfl, ?_, ?_, ?_⟩
    · exact List.Pairwise.sublist (List.take_sublist 200 _)
        (List.sorted_insertionSort newerA _)
    · show ((List.insertionSort newerA
          ((runA hash ops).transfers.filter
            (fun t => t.walletPubkey == w))).take 200).length ≤ 200
      rw [List.length_take]
      exact min_le_left _ _
    · simp only [historyA]
      rw [filter_wallet_eq_ownedA (runA hash ops) (invA_run hash ops) w]

/-- C9, counterexample.  In the SQLite variant the external settlement
reference is not optional: a deposit request with `txSignature` absent is
rejected at validation with a 400 error and no mutation, although the
entry exists, the owner matches and the amount is valid. -/
theorem c9_counterexample :
    depositB (some "w") (some "ID1") (some 5) none 1
        ⟨[⟨"ID1", "w", "note", 0, 0, 0⟩], [], 1, []⟩
      = (.validationError
           "walletPubkey, zkProofId, amount, txSignature are required",
         ⟨[⟨"ID1", "w", "note", 0, 0, 0⟩], [], 1, []⟩) :=
  depositB_noSig (some "w") (some "ID1") (some 5) 1 _

/-- C9, amended.  Deposit error handling, per variant.  PostgreSQL
variant: the settlement reference is optional (a valid deposit with it
absent succeeds), an unknown identifier yields NotFoundError, an existing
entry with a different owner yields the dedicated OwnershipError, and —
fields being present — ValidationError is returned exactly when the amount
is not a positive number.  SQLite variant: the settlement reference is
required (absent means ValidationError), and an existing entry with a
different owner is reported as NotFoundError, not as an ownership error,
because the lookup is by identifier and wallet together. -/
theorem c9_amended :
    (∀ (w pid : Option String) (amount : Option Amount) (now : Nat)
       (s : StateA) (proof : Entry),
       falsyS w = false → falsyS pid = false → falsyQ amount = false →
       0 < amount.getD 0 →
       s.proofs.find? (fun e => e.id == pid.getD "") = some proof →
       proof.walletPubkey = w.getD "" →
       depositA w pid amount none now s =
         (.depositOk (pid.getD "") (proof.total + amount.getD 0 - proof.spent)
           (proof.total + amount.getD 0) proof.spent,
          { proofs := s.proofs.map fun e =>
              if e.id = pid.getD "" then { e with total := e.total + amount.getD 0 } else e,
            transfers := s.transfers ++
              [⟨s.nextTransferId, pid.getD "", w.getD "", .DEPOSIT,
                amount.getD 0, none, none, now⟩],
            nextTransferId := s.nextTransferId + 1 })) ∧
    (∀ (w pid : Option String) (amount : Option Amount)
       (sigo : Option String) (now : Nat) (s : StateA),
       falsyS w = false → falsyS pid = false → falsyQ amount = false →
       0 < amount.getD 0 →
       s.proofs.find? (fun e => e.id == pid.getD "") = none →
       depositA w pid amount sigo now s = (.notFound "zk_proof not found", s)) ∧
    (∀ (w pid : Option String) (amount : Option Amount)
       (sigo : Option String) (now : Nat) (s : StateA) (proof : Entry),
       falsyS w = false → falsyS pid = false → falsyQ amount = false →
       0 < amount.getD 0 →
       s.proofs.find? (fun e => e.id == pid.getD "") = some proof →
       proof.walletPubkey ≠ w.getD "" →
       depositA w pid amount sigo now s = (.ownershipError, s)) ∧
    (∀ (w pid : Option String) (amount : Option Amount)
       (sigo : Option String) (now : Nat) (s : StateA),
       falsyQ amount = true ∨ amount.getD 0 ≤ 0 →
       depositA w pid amount sigo now s =
         (.validationError
            "walletPubkey, zkProofId and positive amount are required", s)) ∧
    (∀ (w pid : Option String) (amount : Option Amount)
       (sigo : Option String) (now : Nat) (s : StateA),
       falsyS w = false → falsyS pid = false → falsyQ amount = false →
       0 < amount.getD 0 →
       ∀ msg, (depositA w pid amount sigo now s).1 ≠ .validationError msg) ∧
    (∀ (w pid : Option String) (amount : Option Amount) (now : Nat)
       (s : StateB),
       depositB w pid amount none now s =
         (.validationError
            "walletPubkey, zkProofId, amount, txSignature are required", s)) ∧
    (∀ (w pid : Option String) (amount : Option Amount)
       (sigo : Option String) (now : Nat) (s : StateB) (proof : Entry),
       falsyS w = false → falsyS pid = false → falsyQ amount = false →
       falsyS sigo = false →
       (s.proofs.map (·.id)).Nodup →
       s.proofs.find? (fun e => e.id == pid.getD "") = some proof →
       proof.walletPubkey ≠ w.getD "" →
       depositB w pid amount sigo now s =
         (.notFound "zk_proof not found for this wallet", s)) := by
  refine ⟨?_, ?_, ?_, ?_, ?_, ?_, ?_⟩
  · intro w pid amount now s proof hf1 hf2 hf3 hamt hfind hown
    rw [depositA_accept w pid amount none now s proof hf1 hf2 hf3 hamt
      hfind hown]
    simp [falsyS]
  · intro w pid amount sigo now s hf1 hf2 hf3 hamt hfind
    exact depositA_notFound w pid amount sigo now s hf1 hf2 hf3 hamt hfind
  · intro w pid amount sigo now s proof hf1 hf2 hf3 hamt hfind hown
    exact depositA_ownership w pid amount sigo now s proof hf1 hf2 hf3 hamt
      hfind hown
  · intro w pid amount sigo now s hbad
    exact depositA_badAmount w pid amount sigo now s hbad
  · intro w pid amount sigo now s hf1 hf2 hf3 hamt msg
    have hcond : (falsyS w || falsyS pid || falsyQ amount ||
        decide (amount.getD 0 ≤ 0)) = false := by
      simp [hf1, hf2, hf3, not_le.mpr hamt]
    simp only [depositA, hcond, Bool.false_eq_true, if_false]
    split
    · simp
    · split
      · simp
      · split <;> simp
  · intro w pid amount now s
    exact depositB_noSig w pid amount now s
  · intro w pid amount sigo now s proof hf1 hf2 hf3 hf4 hnd hfind hown
    have hcomb : s.proofs.find?
        (fun e => e.id == pid.getD "" && e.walletPubkey == w.getD "") = none := by
      rw [find?_id_and_wallet s.proofs hnd (pid.getD "") (w.getD ""), hfind]
      simp [hown]
    exact depositB_notFound w pid amount sigo now s hf1 hf2 hf3 hf4 hcomb

/-- C9, witness: the seven branches exercised at concrete inputs — variant
A accepting a deposit without a reference, rejecting unknown id, foreign
owner and non-positive amount, never reporting a validation error on a
valid request; variant B rejecting a deposit without a reference and
reporting a foreign owner as not-found. -/
theorem c9_witness :
    (depositA (some "w") (some "ID1") (some 5) none 1
        ⟨[⟨"ID1", "w", "note", 0, 0, 0⟩], [], 1⟩ =
      (.depositOk "ID1" (0 + 5 - 0) (0 + 5) 0,
       { proofs := [⟨"ID1", "w", "note", 0, 0, 0⟩].map fun e =>
           if e.id = "ID1" then { e with total := e.total + 5 } else e,
         transfers := [] ++ [⟨1, "ID1", "w", .DEPOSIT, 5, none, none, 1⟩],
         nextTransferId := 2 })) ∧
    (depositA (some "w") (some "NOPE") (some 5) none 1
        ⟨[⟨"ID1", "w", "note", 0, 0, 0⟩], [], 1⟩
      = (.notFound "zk_proof not found",
         ⟨[⟨"ID1", "w", "note", 0, 0, 0⟩], [], 1⟩)) ∧
    (depositA (some "intruder") (some "ID1") (some 5) none 1
        ⟨[⟨"ID1", "w", "note", 0, 0, 0⟩], [], 1⟩
      = (.ownershipError, ⟨[⟨"ID1", "w", "note", 0, 0, 0⟩], [], 1⟩)) ∧
    (depositA (some "w") (some "ID1") (some (-3)) none 1
        ⟨[⟨"ID1", "w", "note", 0, 0, 0⟩], [], 1⟩
      = (.validationError
           "walletPubkey, zkProofId and positive amount are required",
         ⟨[⟨"ID1", "w", "note", 0, 0, 0⟩], [], 1⟩)) ∧
    ((depositA (some "w") (some "ID1") (some 5) none 1
        ⟨[⟨"ID1", "w", "note", 0, 0, 0⟩], [], 1⟩).1
      ≠ .validationError "m") ∧
    (depositB (some "w") (some "ID1") (some 5) none 1
        ⟨[⟨"ID1", "w", "note", 0, 0, 0⟩], [], 1, []⟩
      = (.validationError
           "walletPubkey, zkProofId, amount, txSignature are required",
         ⟨[⟨"ID1", "w", "note", 0, 0, 0⟩], [], 1, []⟩)) ∧
    (depositB (some "intruder") (some "ID1") (some 5) (some "sig") 1
        ⟨[⟨"ID1", "w", "note", 0, 0, 0⟩], [], 1, []⟩
      = (.notFound "zk_proof not found for this wallet",
         ⟨[⟨"ID1", "w", "note", 0, 0, 0⟩], [], 1, []⟩)) :=
  ⟨c9_amended.1 (some "w") (some "ID1") (some 5) 1 _
      ⟨"ID1", "w", "note", 0, 0, 0⟩ rfl rfl (falsyQ_of_ne _ (by norm_num))
      (by norm_num) rfl rfl,
   c9_amended.2.1 (some "w") (some "NOPE") (some 5) none 1 _ rfl rfl
      (falsyQ_of_ne _ (by norm_num)) (by norm_num) rfl,
   c9_amended.2.2.1 (some "intruder") (some "ID1") (some 5) none 1 _
      ⟨"ID1", "w", "note", 0, 0, 0⟩ rfl rfl (falsyQ_of_ne _ (by norm_num))
      (by norm_num) rfl (by decide),
   c9_amended.2.2.2.1 (some "w") (some "ID1") (some (-3)) none 1 _
      (Or.inr (by norm_num)),
   c9_amended.2.2.2.2.1 (some "w") (some "ID1") (some 5) none 1 _ rfl rfl
      (falsyQ_of_ne _ (by norm_num)) (by norm_num) "m",
   c9_amended.2.2.2.2.2.1 (some "w") (some "ID1") (some 5) 1 _,
   c9_amended.2.2.2.2.2.2 (some "intruder") (some "ID1") (some 5)
      (some "sig") 1 _ ⟨"ID1", "w", "note", 0, 0, 0⟩ rfl rfl
      (falsyQ_of_ne _ (by norm_num)) rfl (by simp) rfl (by decide)⟩

/-- Identifiers derived by variant A are never the empty string (they all
start with the fixed ZKP- prefix). -/
theorem idOfA_ne_empty (hash : String → String) (w note : String) :
    idOfA hash w note ≠ "" := by
  intro h
  have hlen := congrArg String.length h
  rw [idOfA, String.length_append] at hlen
  have h4 : ("ZKP-" : String).length = 4 := rfl
  have h0 : ("" : String).length = 0 := rfl
  rw [h4, h0] at hlen
  omega

/-- C10, counterexample.  Submitting the same two requests — issue an
identifier, then withdraw 2⁻³⁰ with the correct note — to both variants
produces different final accumulators: the PostgreSQL variant rejects the
withdrawal (exact check, available balance 0), the SQLite variant accepts
it through its 1e-9 tolerance and ends with withdrawn = 2⁻³⁰. -/
theorem c10_counterexample :
    (runAC (fun s => s)
      [.issue "w" "note" 0,
       .wd (idOfA (fun s => s) "w" "note") "note" (1/1073741824) "r" 1]).proofs
      ≠ (runBC (fun s => s)
      [.issue "w" "note" 0,
       .wd (idOfA (fun s => s) "w" "note") "note" (1/1073741824) "r" 1]).proofs := by
  have hf1 : falsyS (some (idOfA (fun s => s) "w" "note")) = false := by
    simp only [falsyS]
    exact beq_eq_false_iff_ne.mpr (idOfA_ne_empty _ _ _)
  have hfind : ([⟨idOfA (fun s => s) "w" "note", "w", "note", 0, 0, 0⟩] : List Entry).find?
      (fun e => e.id == (some (idOfA (fun s => s) "w" "note")).getD "")
      = some ⟨idOfA (fun s => s) "w" "note", "w", "note", 0, 0, 0⟩ :=
    List.find?_cons_of_pos _ (by simp)
  have hA : (runAC (fun s => s)
      [.issue "w" "note" 0,
       .wd (idOfA (fun s => s) "w" "note") "note" (1/1073741824) "r" 1]).proofs
      = [⟨idOfA (fun s => s) "w" "note", "w", "note", 0, 0, 0⟩] := by
    show (withdrawA (fun s => s) (some (idOfA (fun s => s) "w" "note"))
        (some "note") (some (1/1073741824)) (some "r") none 1
        ⟨[⟨idOfA (fun s => s) "w" "note", "w", "note", 0, 0, 0⟩], [], 1⟩).2.proofs = _
    rw [withdrawA_insufficient (fun s => s)
        (some (idOfA (fun s => s) "w" "note")) (some "note")
        (some (1/1073741824)) (some "r") none 1
        ⟨[⟨idOfA (fun s => s) "w" "note", "w", "note", 0, 0, 0⟩], [], 1⟩
        ⟨idOfA (fun s => s) "w" "note", "w", "note", 0, 0, 0⟩
        hf1 rfl rfl (falsyQ_of_ne _ (by norm_num)) (by norm_num) hfind rfl
        (by norm_num)]
  have hB : (runBC (fun s => s)
      [.issue "w" "note" 0,
       .wd (idOfA (fun s => s) "w" "note") "note" (1/1073741824) "r" 1]).proofs
      = [⟨idOfA (fun s => s) "w" "note", "w", "note", 0, 0 + 1/1073741824, 0⟩] := by
    show (settleSuccessB
        ((⟨[⟨idOfA (fun s => s) "w" "note", "w", "note", 0, 0, 0⟩], [], 1, []⟩ : StateB)).nextTxId
        "settled"
        ((withdrawB (fun s => s) true (some (idOfA (fun s => s) "w" "note"))
          (some "note") (some (1/1073741824)) (some "r") 1
          ⟨[⟨idOfA (fun s => s) "w" "note", "w", "note", 0, 0, 0⟩], [], 1, []⟩).2)).proofs = _
    rw [settleSuccessB_proofs]
    rw [withdrawB_accept (fun s => s) true
        (some (idOfA (fun s => s) "w" "note")) (some "note")
        (some (1/1073741824)) (some "r") 1
        ⟨[⟨idOfA (fun s => s) "w" "note", "w", "note", 0, 0, 0⟩], [], 1, []⟩
        ⟨idOfA (fun s => s) "w" "note", "w", "note", 0, 0, 0⟩
        hf1 rfl (falsyQ_of_ne _ (by norm_num)) rfl rfl hfind rfl
        (by norm_num) (by norm_num [eps])]
    simp
  rw [hA, hB]
  intro h
  simp only [List.cons.injEq, and_true, Entry.mk.injEq, true_and] at h
  norm_num at h

/-- C10, amended.  The two variants implement the same ledger on the
agreement domain: for every serialized sequence of issuance, deposits
carrying a settlement reference, and withdrawals whose settlements succeed
and whose amounts never fall in the (balance, balance + 1e-9] tolerance
window of the addressed entry, both variants end with identical entry
tables — the same deposited and withdrawn accumulators for every
identifier.  (The counterexample shows the window exclusion is
necessary.) -/
theorem c10_amended (hash : String → String) (ops : List OpC)
    (hok : agreeOk hash initA ops = true) :
    (runAC hash ops).proofs = (runBC hash ops).proofs :=
  agree_run_aux hash ops initA initB invA_init rfl hok

/-- C10, witness: on the one-request trace that issues an identifier, both
variants produce the same entry table. -/
theorem c10_witness :
    (runAC (fun s => s) [.issue "w" "note" 0]).proofs
      = (runBC (fun s => s) [.issue "w" "note" 0]).proofs :=
  c10_amended (fun s => s) [.issue "w" "note" 0] rfl

end ZkNon
